import Mathlib

/-!
Verification of the gb-rs emulator core: a shallow embedding, in Lean, of
the CPU execution state machine (`src/gb/cpu/core.rs`), the address-space
dispatch (`src/gb/bus.rs`) and the video unit (`src/gb/video.rs`), together
with proofs of the specified properties.

Machine integers are modelled as `Nat` with explicit wrap-around
(`% 256` for `u8`, `% 65536` for `u16`) wherever the Rust arithmetic can
overflow; values carried by typed interfaces (`u8` parameters) are plain
`Nat`, with `< 256` hypotheses added where the width matters.
-/

/-- Wrapping 8-bit addition, the semantics of `u8` `+` / `+=`. -/
def wadd8 (a b : Nat) : Nat := (a + b) % 256

/-- Wrapping 8-bit subtraction, the semantics of `u8` `-` / `-=`. -/
def wsub8 (a b : Nat) : Nat := (a % 256 + 256 - b % 256) % 256

/-- Wrapping 16-bit addition, the semantics of `u16` `+` / `+=`. -/
def wadd16 (a b : Nat) : Nat := (a + b) % 65536

/-- Wrapping 16-bit subtraction, the semantics of `u16` `-` / `-=`. -/
def wsub16 (a b : Nat) : Nat := (a % 65536 + 65536 - b % 65536) % 65536

/-- Modelled from the spec: the trace-event taxonomy of the `dbg` module
(not present under `src/`): a breakpoint hit (non-fatal), the CGB
speed-switch request (non-fatal, absorbed internally), an access outside
every mapped bus range, and any other fatal decode/execute condition. -/
inductive TraceEvent
  | Breakpoint (addr : Nat)
  | CgbSpeedSwitchReq
  | InvalidAddress (addr : Nat)
  | Fatal
deriving DecidableEq, Repr

/-- Memory addressing modes of a source/destination operand
(`MemoryAddressing` in `core.rs`); `Io` is the `($ff00 + a8)` mode. -/
inductive MemoryAddressing
  | A16
  | Io
  | C
  | BC
  | DE
  | HL
  | SP
deriving DecidableEq, Repr

/-- Operand location metadata (`OperandLocation` in `core.rs`). -/
inductive OperandLocation
  | Register
  | Immediate
  | Memory (m : MemoryAddressing)
deriving DecidableEq, Repr

/-- Static per-opcode metadata (`OpcodeInfo` in `core.rs`); the mnemonic
string is dropped (it is never consulted by the execution engine). Field
`taken` is the cycle count if the branch is taken (`info.4`), `untaken`
if not (`info.5`), `size` the instruction byte length (`info.3`). -/
structure OpcodeInfo where
  dst : OperandLocation
  src : OperandLocation
  size : Nat
  taken : Nat
  untaken : Nat
deriving DecidableEq, Repr

/-- State-machine phases of the execution engine (`CpuState`). -/
inductive CpuState
  | FetchOpcode
  | FetchByte0
  | FetchByte1
  | FetchMemory
  | Writeback
  | Delay (n : Nat)
deriving DecidableEq, Repr

/-- Deferred memory effects (`WritebackOp`). -/
inductive WritebackOp
  | Write8 (dest : Nat) (d8 : Nat)
  | Write16 (dest : Nat) (d16 : Nat)
  | Push (d16 : Nat)
  | Return
deriving DecidableEq, Repr

/-- The CPU register file, execution state and debug state (`struct CPU`
in `core.rs`). Breakpoints (`HashSet<u16>` in the source) are modelled as
a list of addresses queried by membership. -/
structure CPU where
  af : Nat
  bc : Nat
  de : Nat
  hl : Nat
  sp : Nat
  pc : Nat
  halted : Bool
  halt_bug : Bool
  should_halt : Bool
  intr_enabled : Bool
  state : CpuState
  info : OpcodeInfo
  opcode : Nat
  cb_mode : Bool
  operand : Nat
  write_op : Option WritebackOp
  executing : Bool
  branch_taken : Bool
  remaining_cycles : Nat
  paused : Bool
  breakpoints : List Nat
  ignore_next_halt : Bool
deriving DecidableEq, Repr

/-- Modelled from the spec: `OPCODES[0]` (the metadata the default CPU
starts with); the opcode table itself lives in `opcodes.rs`, which is not
under `src/` — opcode `0x00` is NOP: register operands, 1 byte, 4 cycles. -/
def nopInfo : OpcodeInfo := ⟨.Register, .Register, 1, 4, 4⟩

/-- The power-on CPU (`impl Default for CPU`). -/
def CPU.default : CPU where
  af := 0
  bc := 0
  de := 0
  hl := 0
  sp := 0
  pc := 0
  halted := false
  halt_bug := false
  should_halt := false
  intr_enabled := false
  state := .FetchOpcode
  info := nopInfo
  opcode := 0
  cb_mode := false
  operand := 0
  write_op := none
  executing := false
  branch_taken := false
  remaining_cycles := 0
  paused := false
  breakpoints := []
  ignore_next_halt := false

/-- Sub-register accessor `CPU::c` (low byte of `bc`). -/
def CPU.c (c : CPU) : Nat := c.bc % 256

/-- Flag-register accessor `CPU::f`: `(self.af & 0x00F0) as u8`. -/
def CPU.f (c : CPU) : Nat := c.af &&& 0xF0

/-- Flag-register setter `CPU::set_f`:
`self.af = (self.af & 0xFF00) | u16::from(v & 0xF0)`. -/
def CPU.set_f (c : CPU) (v : Nat) : CPU :=
  { c with af := (c.af &&& 0xFF00) ||| (v &&& 0xF0) }

/-- Zero-flag setter `CPU::set_zf`. -/
def CPU.set_zf (c : CPU) (v : Bool) : CPU :=
  c.set_f ((c.f &&& 0x7F) ||| ((if v then 1 else 0) <<< 7))

/-- Subtract-flag setter `CPU::set_sf`. -/
def CPU.set_sf (c : CPU) (v : Bool) : CPU :=
  c.set_f ((c.f &&& 0xBF) ||| ((if v then 1 else 0) <<< 6))

/-- Half-carry-flag setter `CPU::set_hc`. -/
def CPU.set_hc (c : CPU) (v : Bool) : CPU :=
  c.set_f ((c.f &&& 0xDF) ||| ((if v then 1 else 0) <<< 5))

/-- Carry-flag setter `CPU::set_cy`. -/
def CPU.set_cy (c : CPU) (v : Bool) : CPU :=
  c.set_f ((c.f &&& 0xEF) ||| ((if v then 1 else 0) <<< 4))

/-- Modelled from the spec: the engine-to-bus contract (`mem::MemRW`, not
under `src/`): fallible sized reads and writes. A read leaves the bus
unchanged; a write returns the (possibly mutated) bus together with an
optional failure, since memory side effects are not rolled back. -/
structure BusOps (β : Type) where
  read8 : β → Nat → Except TraceEvent Nat
  read16 : β → Nat → Except TraceEvent Nat
  write8 : β → Nat → Nat → β × Option TraceEvent
  write16 : β → Nat → Nat → β × Option TraceEvent

/-- Modelled from the spec: the external collaborators of the execution
engine — the per-opcode metadata table `OPCODES` and the per-opcode
semantic functions `CPU::op` / `CPU::op_cb` (all in `opcodes.rs`, not
under `src/`; the spec leaves the table contents out of scope) — plus the
bus the engine drives. A semantic function mutates the CPU and may fail;
on failure the mutations it already applied persist. -/
structure Sem (β : Type) where
  table : Nat → OpcodeInfo
  op : CPU → CPU × Option TraceEvent
  opCb : CPU → CPU × Option TraceEvent
  bus : BusOps β

/-- Helper `CPU::fetch_pc`: read one byte at `pc` and advance `pc`. -/
def fetch_pc (bops : BusOps β) (c : CPU) (b : β) : CPU × Except TraceEvent Nat :=
  match bops.read8 b c.pc with
  | .error e => (c, .error e)
  | .ok v => ({ c with pc := wadd16 c.pc 1 }, .ok v)

/-- Execution step `CPU::exec`: run the opcode's semantic effect, apply
the taken-branch cycle adjustment, then choose the next phase. -/
def exec (sem : Sem β) (c : CPU) : CPU × Option TraceEvent :=
  match (if !c.cb_mode then sem.op c else sem.opCb c) with
  | (c', some e) => (c', some e)
  | (c', none) =>
    let c' := if c'.branch_taken then
        { c' with
            remaining_cycles :=
              wadd8 c'.remaining_cycles (wsub8 c'.info.taken c'.info.untaken) }
      else c'
    if c'.write_op.isSome then
      ({ c' with state := .Writeback }, none)
    else if 0 < c'.remaining_cycles then
      ({ c' with state := .Delay ((c'.remaining_cycles - 1) / 4) }, none)
    else
      ({ c' with state := .FetchOpcode, executing := false }, none)

/-- Phase `CPU::fetch_opcode`: breakpoint check, opcode fetch, state
reset, cycle-budget initialization and next-phase selection. -/
def fetch_opcode (sem : Sem β) (c : CPU) (b : β) : CPU × β × Option TraceEvent :=
  if !c.paused && c.breakpoints.contains c.pc then
    ({ c with paused := true }, b, some (.Breakpoint c.pc))
  else
    let c := { c with paused := false }
    match fetch_pc sem.bus c b with
    | (c, .error e) => (c, b, some e)
    | (c, .ok op) =>
      let info := sem.table op
      let c := { c with
        opcode := op
        info := info
        operand := 0
        cb_mode := op == 0xCB
        write_op := none
        executing := true
        branch_taken := false
        remaining_cycles := wsub8 info.untaken 4 }
      if 1 < c.info.size then
        ({ c with state := .FetchByte0 }, b, none)
      else
        match c.info.src with
        | .Memory _ => ({ c with state := .FetchMemory }, b, none)
        | _ => let r := exec sem c; (r.1, b, r.2)

/-- Phase `CPU::fetch_immediate`: fetch one immediate byte; in CB mode
the byte fetched in `FetchByte0` becomes the effective opcode, and a
low-3-bits-6 secondary opcode is forced to `(HL)` addressing with 8
extra cycles. -/
def fetch_immediate (sem : Sem β) (c : CPU) (b : β) : CPU × β × Option TraceEvent :=
  match fetch_pc sem.bus c b with
  | (c, .error e) => (c, b, some e)
  | (c, .ok d8) =>
    match c.state with
    | .FetchByte0 =>
      let c := { c with operand := c.operand ||| d8 }
      let c := if c.cb_mode then
          let c := { c with opcode := c.operand % 256 }
          if c.operand &&& 0x7 == 0x6 then
            { c with info := { c.info with src := .Memory .HL },
                     remaining_cycles := wadd8 c.remaining_cycles 8 }
          else c
        else c
      if 2 < c.info.size then
        ({ c with state := .FetchByte1 }, b, none)
      else
        match c.info.src with
        | .Memory _ => ({ c with state := .FetchMemory }, b, none)
        | _ => let r := exec sem c; (r.1, b, r.2)
    | .FetchByte1 =>
      let c := { c with operand := c.operand ||| (d8 <<< 8) }
      match c.info.src with
      | .Memory _ => ({ c with state := .FetchMemory }, b, none)
      | _ => let r := exec sem c; (r.1, b, r.2)
    | _ => (c, b, some .Fatal)

/-- Phase `CPU::fetch_memory`: resolve the memory-addressed source
operand, then execute. The catch-all arm is `unreachable!()` in the
source, modelled as a fatal event. -/
def fetch_memory (sem : Sem β) (c : CPU) (b : β) : CPU × β × Option TraceEvent :=
  let after := fun (c : CPU) (v : Nat) =>
    let c := { c with operand := v }
    let r := exec sem c; (r.1, b, r.2)
  match c.info.src with
  | .Memory .C =>
    match sem.bus.read8 b (0xFF00 + c.c) with
    | .error e => (c, b, some e)
    | .ok v => after c v
  | .Memory .Io =>
    match sem.bus.read8 b (wadd16 0xFF00 c.operand) with
    | .error e => (c, b, some e)
    | .ok v => after c v
  | .Memory .BC =>
    match sem.bus.read8 b c.bc with
    | .error e => (c, b, some e)
    | .ok v => after c v
  | .Memory .DE =>
    match sem.bus.read8 b c.de with
    | .error e => (c, b, some e)
    | .ok v => after c v
  | .Memory .HL =>
    match sem.bus.read8 b c.hl with
    | .error e => (c, b, some e)
    | .ok v => after c v
  | .Memory .A16 =>
    match sem.bus.read8 b c.operand with
    | .error e => (c, b, some e)
    | .ok v => after c v
  | .Memory .SP =>
    match sem.bus.read16 b c.sp with
    | .error e => (c, b, some e)
    | .ok v => after { c with sp := wadd16 c.sp 2 } v
  | _ => (c, b, some .Fatal)

/-- Phase `CPU::writeback`: pick the next phase from the remaining
budget, then perform the single queued memory effect. -/
def writeback (sem : Sem β) (c : CPU) (b : β) : CPU × β × Option TraceEvent :=
  let c := if 0 < c.remaining_cycles then
      { c with state := .Delay ((c.remaining_cycles - 1) / 4) }
    else
      { c with state := .FetchOpcode, executing := false }
  match c.write_op with
  | some (.Write8 dest d8) =>
    let r := sem.bus.write8 b dest d8; (c, r.1, r.2)
  | some (.Write16 dest d16) =>
    let r := sem.bus.write16 b dest d16; (c, r.1, r.2)
  | some (.Push d16) =>
    let c := { c with sp := wsub16 c.sp 2 }
    let r := sem.bus.write16 b c.sp d16; (c, r.1, r.2)
  | some .Return =>
    match sem.bus.read16 b c.sp with
    | .error e => (c, b, some e)
    | .ok v => ({ c with pc := v, sp := wadd16 c.sp 2 }, b, none)
  | none => (c, b, none)

/-- Dispatch over the current phase — the `match self.state` inside
`CPU::tick`, applied to the CPU with the budget already decremented. -/
def tickPhase (sem : Sem β) (c : CPU) (b : β) : CPU × β × Option TraceEvent :=
  match c.state with
  | .FetchOpcode => fetch_opcode sem c b
  | .FetchByte0 => fetch_immediate sem c b
  | .FetchByte1 => fetch_immediate sem c b
  | .FetchMemory => fetch_memory sem c b
  | .Writeback => writeback sem c b
  | .Delay 0 => ({ c with state := .FetchOpcode, executing := false }, b, none)
  | .Delay (n + 1) => ({ c with state := .Delay n }, b, none)

/-- One engine step `CPU::tick`: snapshot, decrement the budget by 4,
run the phase; absorb a speed-switch request (arming the one-shot
halt-suppression flag), restore the snapshot on any other failure
(bus effects persist), and on success apply the pending halt
suppression. -/
def tick (sem : Sem β) (c : CPU) (b : β) : CPU × β × Option TraceEvent :=
  let saved := c
  let c := { c with remaining_cycles := wsub8 c.remaining_cycles 4 }
  match tickPhase sem c b with
  | (c1, b1, some .CgbSpeedSwitchReq) =>
    ({ c1 with ignore_next_halt := true }, b1, none)
  | (_, b1, some e) => (saved, b1, some e)
  | (c1, b1, none) =>
    if c1.should_halt && c1.ignore_next_halt then
      ({ c1 with ignore_next_halt := false, should_halt := false }, b1, none)
    else
      (c1, b1, none)

/-- One driver-visible step: the CPU/bus pair after a `tick` call. -/
def step1 (sem : Sem β) (p : CPU × β) : CPU × β :=
  let r := tick sem p.1 p.2
  (r.1, r.2.1)

/-- Iterated `tick` calls: `steps sem n p` is the CPU/bus pair after
`n` consecutive `tick` calls starting from `p`. -/
def steps (sem : Sem β) : Nat → CPU × β → CPU × β
  | 0, p => p
  | n + 1, p => steps sem n (step1 sem p)

/-- Modelled from the spec: a Memory Block — a flat byte array
implementing the sized-access capability (`memory.rs`, not under
`src/`). Modelled as a total byte store indexed by local offset;
staying in bounds is a caller invariant, not a checked condition. -/
abbrev Memory := Nat → Nat

/-- Byte write into a memory block at a local offset. -/
def Memory.write8 (m : Memory) (o v : Nat) : Memory :=
  fun o' => if o' = o then v else m o'

/-- Pixel extraction `Tile::pixel`: a tile row is two interleaved
bit-planes; bit `7 - x` of the high plane and of the low plane form the
2-bit color index. The tile is its 16-byte record, indexed by byte. -/
def tilePixel (t : Nat → Nat) (x y : Nat) : Nat :=
  let bl := t (y * 2)
  let bh := t (y * 2 + 1)
  (((bh >>> (7 - x)) &&& 0x1) <<< 1) ||| ((bl >>> (7 - x)) &&& 0x1)

/-- Sprite-table byte read (`impl MemR for &[Sprite]`, `u8` instance):
sprite record `addr >> 2`, byte `addr % 2` within the record. -/
def oamRead8 (oam : Nat → Nat → Nat) (a : Nat) : Nat :=
  oam (a >>> 2) (a % 2)

/-- Sprite-table byte write (`impl MemW for &mut [Sprite]`, `u8`
instance): sprite record `addr >> 2`, byte `addr % 2`. -/
def oamWrite8 (oam : Nat → Nat → Nat) (a v : Nat) : Nat → Nat → Nat :=
  fun s bi => if s = a >>> 2 then (if bi = a % 2 then v else oam s bi) else oam s bi

/-- The video unit (`struct PPU`): 384 16-byte tiles, 40 4-byte sprite
records, two 1024-byte tile maps and a 48-byte register bank, each
modelled as a total store indexed by record/byte. -/
structure PPU where
  tdt : Nat → Nat → Nat
  oam : Nat → Nat → Nat
  bgtm0 : Nat → Nat
  bgtm1 : Nat → Nat
  regs : Nat → Nat

/-- The power-on PPU: all stores zero-filled. -/
def ppuZ : PPU := ⟨fun _ _ => 0, fun _ _ => 0, fun _ => 0, fun _ => 0, fun _ => 0⟩

/-- Register accessor `PPU::lcdc` (LCD control, `regs[0x00]`). -/
def PPU.lcdc (p : PPU) : Nat := p.regs 0x00

/-- Register accessor `PPU::bgp` (background palette, `regs[0x07]`). -/
def PPU.bgp (p : PPU) : Nat := p.regs 0x07

/-- Register accessor `PPU::scroll_x` (`regs[0x03]`). -/
def PPU.scroll_x (p : PPU) : Nat := p.regs 0x03

/-- Register accessor `PPU::scroll_y` (`regs[0x02]`). -/
def PPU.scroll_y (p : PPU) : Nat := p.regs 0x02

/-- Horizontal-sync tick `PPU::hsync`:
`self.regs[0x04] = (self.regs[0x04] + 1) % 154`, where the `+ 1` is a
`u8` addition and therefore wraps at 256. -/
def PPU.hsync (p : PPU) : PPU :=
  { p with regs := fun i => if i = 0x04 then ((p.regs 0x04 + 1) % 256) % 154 else p.regs i }

/-- Register-bank byte write `PPU::io_write` (`u8` instance). -/
def PPU.io_write8 (p : PPU) (idx v : Nat) : PPU :=
  { p with regs := fun i => if i = idx then v else p.regs i }

/-- Shade mapping `PPU::shade`: the 2-bit color selects a palette slot,
mapped to a 4-level gray. The masked value is below 4, so the source's
final `unreachable!()` arm is never taken; it is given the value 0 here. -/
def PPU.shade (p : PPU) (color : Nat) : Nat :=
  match (p.bgp >>> (color * 2)) &&& 0x3 with
  | 0 => 0xFF
  | 1 => 0xAA
  | 2 => 0x55
  | 3 => 0x00
  | _ => 0

/-- Tile lookup `PPU::bg_tile`: LCDC bit 3 selects the tile map, LCDC
bit 4 selects unsigned indexing or signed indexing biased by 128
(`(128 + i32::from(tile_id as i8)) as usize`, written out for a byte
value). -/
def PPU.bg_tile (p : PPU) (id : Nat) : Nat → Nat :=
  let tile_id := if p.lcdc &&& 0x08 == 0 then p.bgtm0 id else p.bgtm1 id
  if p.lcdc &&& 0x10 == 0 then
    p.tdt (if tile_id % 256 < 128 then 128 + tile_id % 256 else tile_id % 256 - 128)
  else
    p.tdt tile_id

/-- Background rasterization `PPU::rasterize` over an output byte
buffer: with the display-enable bit clear every byte is forced to
`0xFF`; otherwise each of the 144x160 pixels gets its shade written to
its three color channels. -/
def PPU.rasterize (p : PPU) (vbuf : List Nat) : List Nat :=
  if p.lcdc &&& 0x80 == 0 then
    vbuf.map (fun _ => 0xFF)
  else
    (List.range 144).foldl (fun vb py =>
      (List.range 160).foldl (fun vb px =>
        let y := (py + p.scroll_y) % 256
        let x := (px + p.scroll_x) % 256
        let pid := py * (160 * 3) + px * 3
        let t := p.bg_tile (((y >>> 3) <<< 5) + (x >>> 3))
        let c := tilePixel t (x &&& 0x07) (y &&& 0x7)
        let shade := p.shade c
        ((vb.set pid shade).set (pid + 1) shade).set (pid + 2) shade) vb) vbuf

/-- Byte read of the video unit (`impl MemR for PPU`, `u8` instance).
The addresses arriving here are global; translation happens inside
each arm. The source's catch-all arm is `unreachable!()`. -/
def ppuRead8 (p : PPU) (a : Nat) : Option Nat :=
  if 0x8000 ≤ a ∧ a ≤ 0x97FF then
    some (p.tdt ((a - 0x8000) >>> 4) ((a - 0x8000) &&& 0xF))
  else if 0x9800 ≤ a ∧ a ≤ 0x9BFF then
    some (p.bgtm0 (a - 0x9800))
  else if 0x9C00 ≤ a ∧ a ≤ 0x9FFF then
    some (p.bgtm1 (a - 0x9C00))
  else if 0xFE00 ≤ a ∧ a ≤ 0xFE9F then
    some (oamRead8 p.oam (a - 0xFE00))
  else if 0xFF40 ≤ a ∧ a ≤ 0xFF6F then
    some (p.regs (a - 0xFF40))
  else none

/-- Byte write of the video unit (`impl MemW for PPU`, `u8` instance). -/
def ppuWrite8 (p : PPU) (a v : Nat) : Option PPU :=
  if 0x8000 ≤ a ∧ a ≤ 0x97FF then
    some { p with tdt := fun tid bi =>
                    if tid = (a - 0x8000) >>> 4 then
                      (if bi = (a - 0x8000) &&& 0xF then v else p.tdt tid bi)
                    else p.tdt tid bi }
  else if 0x9800 ≤ a ∧ a ≤ 0x9BFF then
    some { p with bgtm0 := fun i => if i = a - 0x9800 then v else p.bgtm0 i }
  else if 0x9C00 ≤ a ∧ a ≤ 0x9FFF then
    some { p with bgtm1 := fun i => if i = a - 0x9C00 then v else p.bgtm1 i }
  else if 0xFE00 ≤ a ∧ a ≤ 0xFE9F then
    some { p with oam := oamWrite8 p.oam (a - 0xFE00) v }
  else if 0xFF40 ≤ a ∧ a ≤ 0xFF6F then
    some (p.io_write8 (a - 0xFF40) v)
  else none

/-- The system bus (`struct Bus`): the memory blocks it owns, the APU
and the PPU. The APU's internals are out of scope (`sound.rs` is not
under `src/`); modelled from the spec as a byte region conforming to
the device contract. -/
structure Bus where
  rom_00 : Memory
  rom_nn : Memory
  eram : Memory
  hram : Memory
  wram_00 : Memory
  wram_nn : Memory
  apu : Memory
  ppu : PPU

/-- Components an address can be dispatched to. -/
inductive BusTarget
  | rom00
  | romNN
  | ppu
  | eram
  | wram00
  | wramNN
  | apu
  | hram
  | invalid
deriving DecidableEq, Repr

/-- Address-range dispatch of `impl MemR/MemW for Bus`: which component
owns an address, and the address value that is forwarded to it. Memory
blocks and the APU receive the global address minus their range's base;
the PPU arms (`0x8000..=0x9FFF`, `0xFE00..=0xFE9F`, `0xFF40..=0xFF6F`)
forward the global address `addr` unchanged. Unmapped addresses hit the
source's `panic!` arm, modelled as `invalid`. -/
def busRoute (a : Nat) : BusTarget × Nat :=
  if a ≤ 0x3FFF then (.rom00, a)
  else if a ≤ 0x7FFF then (.romNN, a - 0x4000)
  else if a ≤ 0x9FFF then (.ppu, a)
  else if a ≤ 0xBFFF then (.eram, a - 0xA000)
  else if a ≤ 0xCFFF then (.wram00, a - 0xC000)
  else if a ≤ 0xDFFF then (.wramNN, a - 0xD000)
  else if a ≤ 0xEFFF then (.wram00, a - 0xE000)
  else if a ≤ 0xFDFF then (.wramNN, a - 0xF000)
  else if a ≤ 0xFE9F then (.ppu, a)
  else if 0xFF10 ≤ a ∧ a ≤ 0xFF3F then (.apu, a - 0xFF10)
  else if 0xFF40 ≤ a ∧ a ≤ 0xFF6F then (.ppu, a)
  else if 0xFF80 ≤ a ∧ a ≤ 0xFFFE then (.hram, a - 0xFF80)
  else (.invalid, a)

/-- Byte read through the bus (`impl MemR for Bus`, `u8` instance):
dispatch, then read the owning component at the forwarded address. -/
def busRead8 (B : Bus) (a : Nat) : Option Nat :=
  match busRoute a with
  | (.rom00, la) => some (B.rom_00 la)
  | (.romNN, la) => some (B.rom_nn la)
  | (.ppu, la) => ppuRead8 B.ppu la
  | (.eram, la) => some (B.eram la)
  | (.wram00, la) => some (B.wram_00 la)
  | (.wramNN, la) => some (B.wram_nn la)
  | (.apu, la) => some (B.apu la)
  | (.hram, la) => some (B.hram la)
  | (.invalid, _) => none

/-- Byte write through the bus (`impl MemW for Bus`, `u8` instance). -/
def busWrite8 (B : Bus) (a v : Nat) : Option Bus :=
  match busRoute a with
  | (.rom00, la) => some { B with rom_00 := B.rom_00.write8 la v }
  | (.romNN, la) => some { B with rom_nn := B.rom_nn.write8 la v }
  | (.ppu, la) => (ppuWrite8 B.ppu la v).map (fun p => { B with ppu := p })
  | (.eram, la) => some { B with eram := B.eram.write8 la v }
  | (.wram00, la) => some { B with wram_00 := B.wram_00.write8 la v }
  | (.wramNN, la) => some { B with wram_nn := B.wram_nn.write8 la v }
  | (.apu, la) => some { B with apu := B.apu.write8 la v }
  | (.hram, la) => some { B with hram := B.hram.write8 la v }
  | (.invalid, _) => none

/-- The all-zero bus, used as a concrete sample state. -/
def busZ : Bus :=
  ⟨fun _ => 0, fun _ => 0, fun _ => 0, fun _ => 0, fun _ => 0, fun _ => 0, fun _ => 0, ppuZ⟩

/-- Whether an operand location is memory-addressed (`OperandLocation::Memory`). -/
def memSrc : OperandLocation → Bool
  | .Memory _ => true
  | _ => false

/-- Number of ticks still to run before and including the one whose phase
calls `exec`, read off a mid-instruction phase: pending immediate fetches
plus the optional memory fetch. Zero on the phases that never reach
`exec` directly. -/
def phasesLeft (c : CPU) : Nat :=
  match c.state with
  | .FetchByte0 => (if 2 < c.info.size then 1 else 0) + (if memSrc c.info.src then 1 else 0) + 1
  | .FetchByte1 => (if memSrc c.info.src then 1 else 0) + 1
  | .FetchMemory => 1
  | _ => 0

/-- The taken-branch cycle adjustment `exec` will add: `taken - untaken`
cycles when the branch is taken, zero otherwise. -/
def adjD (tk : Bool) (c : CPU) : Nat :=
  if tk then c.info.taken - c.info.untaken else 0

/-- Well-formedness of a pre-exec mid-instruction configuration: the
budget is a multiple of 4 wide enough for the pending phases, the `u8`
metadata fields are in range and 4-divisible, and a queued writeback
still fits in the budget. -/
def PreOk (tk : Bool) (wo : Option WritebackOp) (c : CPU) : Prop :=
  c.cb_mode = false ∧
  c.info.taken < 256 ∧ c.info.untaken < 256 ∧ c.info.untaken ≤ c.info.taken ∧
  c.info.taken % 4 = 0 ∧ c.info.untaken % 4 = 0 ∧
  c.remaining_cycles < 256 ∧ c.remaining_cycles % 4 = 0 ∧
  4 * phasesLeft c ≤ c.remaining_cycles ∧
  c.remaining_cycles - 4 * phasesLeft c + adjD tk c < 256 ∧
  (wo.isSome = true → 4 ≤ c.remaining_cycles - 4 * phasesLeft c + adjD tk c)

/-- Invariant of a mid-instruction configuration, per phase. -/
def MidOk (tk : Bool) (wo : Option WritebackOp) (c : CPU) : Prop :=
  match c.state with
  | .FetchOpcode => True
  | .Delay _ => True
  | .Writeback =>
    4 ≤ c.remaining_cycles ∧ c.remaining_cycles % 4 = 0 ∧ c.remaining_cycles < 256
  | .FetchByte0 => PreOk tk wo c
  | .FetchByte1 => PreOk tk wo c
  | .FetchMemory => PreOk tk wo c ∧ memSrc c.info.src = true

/-- Number of ticks a mid-instruction configuration still needs before
the engine is back in `FetchOpcode`. -/
def ticksLeft (tk : Bool) (c : CPU) : Nat :=
  match c.state with
  | .FetchOpcode => 0
  | .Delay m => m + 1
  | .Writeback => c.remaining_cycles / 4
  | _ => (c.remaining_cycles - 4 * phasesLeft c + adjD tk c) / 4 + phasesLeft c

/-- Behavioral envelope of an abstract per-opcode semantic function: it
never fails, leaves the cycle budget and metadata alone, and has fixed
branching/writeback outcomes `tk` / `wo` (whether the dynamic instance
takes its branch and what memory effect it queues). -/
structure OpSteady (op : CPU → CPU × Option TraceEvent) (tk : Bool) (wo : Option WritebackOp) : Prop where
  op_err : ∀ c, (op c).2 = none
  op_rc : ∀ c, (op c).1.remaining_cycles = c.remaining_cycles
  op_info : ∀ c, (op c).1.info = c.info
  op_bt : ∀ c, (op c).1.branch_taken = tk
  op_wo : ∀ c, (op c).1.write_op = wo

/-- A bus whose reads and writes always succeed. -/
structure BusTotal (bops : BusOps β) : Prop where
  r8 : ∀ b a, ∃ v, bops.read8 b a = .ok v
  r16 : ∀ b a, ∃ v, bops.read16 b a = .ok v
  w8 : ∀ b a v, (bops.write8 b a v).2 = none
  w16 : ∀ b a v, (bops.write16 b a v).2 = none

/-- A trivially total bus on the unit state: reads return 0, writes do
nothing. Used to instantiate theorems at concrete inputs. -/
def busU : BusOps Unit where
  read8 := fun _ _ => .ok 0
  read16 := fun _ _ => .ok 0
  write8 := fun b _ _ => (b, none)
  write16 := fun b _ _ => (b, none)

/-- A concrete semantics on the unit bus: every opcode is NOP-like. -/
def semU : Sem Unit where
  table := fun _ => nopInfo
  op := fun c => ({ c with branch_taken := false, write_op := none }, none)
  opCb := fun c => ({ c with branch_taken := false, write_op := none }, none)
  bus := busU

/-- A bus over a `Bool` state whose byte reads return `0x06` in one
state and `0x00` in the other; used to compare two fetches. -/
def busB : BusOps Bool where
  read8 := fun b _ => .ok (if b then 0x06 else 0x00)
  read16 := fun _ _ => .ok 0
  write8 := fun b _ _ => (b, none)
  write16 := fun b _ _ => (b, none)

/-- The concrete semantics used by the CB-dispatch sample. -/
def semB : Sem Bool where
  table := fun _ => nopInfo
  op := fun c => ({ c with branch_taken := false, write_op := none }, none)
  opCb := fun c => ({ c with branch_taken := false, write_op := none }, none)
  bus := busB

/-- A concrete CPU stopped at an armed breakpoint: `pc = 0x0150`,
breakpoint armed at `0x0150`, not paused, about to fetch. -/
def cpuBp : CPU := { CPU.default with pc := 0x0150, breakpoints := [0x0150] }

/-- A concrete CPU mid CB-prefixed instruction: the `0xCB` byte has been
fetched (2-byte, 8/8-cycle metadata with register operands) and the
engine is about to fetch the secondary opcode byte. -/
def cpuCb : CPU :=
  { CPU.default with
      state := .FetchByte0
      cb_mode := true
      opcode := 0xCB
      info := ⟨.Register, .Register, 2, 8, 8⟩
      remaining_cycles := 4 }

/-- A bus on the unit state whose accesses all fail with an
invalid-address condition; instantiates the rollback theorem. -/
def busErr : BusOps Unit where
  read8 := fun _ a => .error (.InvalidAddress a)
  read16 := fun _ a => .error (.InvalidAddress a)
  write8 := fun b a _ => (b, some (.InvalidAddress a))
  write16 := fun b a _ => (b, some (.InvalidAddress a))

/-- The concrete semantics over the failing bus. -/
def semErr : Sem Unit where
  table := fun _ => nopInfo
  op := fun c => (c, none)
  opCb := fun c => (c, none)
  bus := busErr

/-- A total bus on the unit state serving a CB-prefixed program: byte
reads return `0xCB` at address 0 and `0x06` everywhere else. -/
def busCbHl : BusOps Unit where
  read8 := fun _ a => .ok (if a == 0 then 0xCB else 0x06)
  read16 := fun _ _ => .ok 0
  write8 := fun b _ _ => (b, none)
  write16 := fun b _ _ => (b, none)

/-- A concrete semantics over `busCbHl` whose opcode table gives every
opcode — including the CB prefix — register operands, size 2 and an
8/8 cycle count, with NOP-like semantic functions. -/
def semCbHl : Sem Unit where
  table := fun _ => ⟨.Register, .Register, 2, 8, 8⟩
  op := fun c => ({ c with branch_taken := false, write_op := none }, none)
  opCb := fun c => ({ c with branch_taken := false, write_op := none }, none)
  bus := busCbHl

/-- Helper: the `set_f` update always clears the low nibble of `af`. -/
theorem set_f_low_nibble (a v : Nat) : ((a &&& 0xFF00) ||| (v &&& 0xF0)) &&& 0xF = 0 := by
  rw [Nat.and_distrib_right, Nat.and_assoc, Nat.and_assoc,
      show (0xFF00 &&& 0xF) = 0 from by decide,
      show (0xF0 &&& 0xF) = 0 from by decide,
      Nat.and_zero, Nat.and_zero, Nat.zero_or]

/-- C6: every flag mutation — `set_f` with any argument, and the four
single-flag setters `set_zf`, `set_sf`, `set_hc`, `set_cy` — leaves the
low nibble of the flag register zero: `af &&& 0xF = 0` always holds
after the call. -/
theorem flag_setters_low_nibble_zero (c : CPU) (v : Nat) (b1 b2 b3 b4 : Bool) :
    (c.set_f v).af &&& 0xF = 0 ∧
    (c.set_zf b1).af &&& 0xF = 0 ∧
    (c.set_sf b2).af &&& 0xF = 0 ∧
    (c.set_hc b3).af &&& 0xF = 0 ∧
    (c.set_cy b4).af &&& 0xF = 0 := by
  refine ⟨?_, ?_, ?_, ?_, ?_⟩ <;>
    simp only [CPU.set_zf, CPU.set_sf, CPU.set_hc, CPU.set_cy, CPU.set_f] <;>
    apply set_f_low_nibble

/-- C1: evaluation of `tick` at a CPU in `FetchOpcode` with `pc` equal
to an armed breakpoint and the engine not paused. A `Breakpoint` event
is returned and `pc` is untouched, but the CPU returned is the
*pre-tick snapshot*: the error arm of `tick` restores `saved_ctx`,
which undoes the `pause()` performed inside `fetch_opcode`, so the
paused flag is still false afterwards, contrary to the specified
auto-pause. -/
theorem breakpoint_tick_eval :
    tick semU cpuBp () = (cpuBp, (), some (.Breakpoint 0x0150)) ∧
    cpuBp.paused = false ∧ cpuBp.pc = 0x0150 := by
  decide

/-- C2: transactional failure semantics of `tick`. Whenever the phase
function (run on the budget-decremented CPU) fails with any condition
other than the speed-switch request, `tick` returns exactly the
pre-tick CPU snapshot, while the bus state it returns is the one the
phase produced — bus effects of the failed tick are not undone. -/
theorem tick_fatal_rollback (sem : Sem β) (c : CPU) (b : β) (c1 : CPU) (b1 : β)
    (e : TraceEvent)
    (h : tickPhase sem { c with remaining_cycles := wsub8 c.remaining_cycles 4 } b
          = (c1, b1, some e))
    (hne : e ≠ .CgbSpeedSwitchReq) :
    tick sem c b = (c, b1, some e) := by
  cases e
  case CgbSpeedSwitchReq => exact absurd rfl hne
  all_goals simp only [tick, h]

/-- Witness: the rollback theorem applied to the power-on CPU over a
bus whose reads fail with an invalid-address condition. -/
theorem tick_fatal_rollback_witness :
    tick semErr CPU.default () = (CPU.default, (), some (TraceEvent.InvalidAddress 0)) :=
  tick_fatal_rollback semErr CPU.default ()
    { CPU.default with remaining_cycles := 252 } () (TraceEvent.InvalidAddress 0)
    (by decide) (by decide)

/-- C8 counterexample: set the scanline counter to `0xFF` through the
video register window (`0xFF44`), then `hsync`. The `u8` increment
wraps to 0 before the `% 154`, so the counter becomes 0, whereas
`(0xFF + 1) % 154 = 102` — the claimed value, which is nonzero. -/
theorem hsync_overflow_counterexample :
    ((ppuWrite8 ppuZ 0xFF44 0xFF).map (fun p => (PPU.hsync p).regs 0x04)) = some 0 ∧
    (0xFF + 1) % 154 ≠ 0 := by
  decide

/-- C8 amended: for every prior counter value `c ≤ 254` (so that the
`u8` increment does not wrap), `hsync` sets the scanline counter to
`(c + 1) % 154` and changes no other video-unit state; at `c = 255`
the increment wraps to 0 first. -/
theorem hsync_amended (p : PPU) (h : p.regs 0x04 ≤ 254) :
    (PPU.hsync p).regs 0x04 = (p.regs 0x04 + 1) % 154 ∧
    (PPU.hsync p).tdt = p.tdt ∧ (PPU.hsync p).oam = p.oam ∧
    (PPU.hsync p).bgtm0 = p.bgtm0 ∧ (PPU.hsync p).bgtm1 = p.bgtm1 ∧
    (∀ i, i ≠ 0x04 → (PPU.hsync p).regs i = p.regs i) := by
  unfold PPU.hsync
  refine ⟨?_, rfl, rfl, rfl, rfl, ?_⟩
  · show (if (0x04 : Nat) = 0x04 then ((p.regs 0x04 + 1) % 256) % 154 else p.regs 0x04)
        = (p.regs 0x04 + 1) % 154
    rw [if_pos rfl, Nat.mod_eq_of_lt (show p.regs 0x04 + 1 < 256 by omega)]
  · intro i hi
    simp only [if_neg hi]

/-- Witness: the amended `hsync` property at the all-zero PPU. -/
theorem hsync_amended_witness :
    ppuZ.regs 0x04 ≤ 254 ∧
    ((PPU.hsync ppuZ).regs 0x04 = (ppuZ.regs 0x04 + 1) % 154 ∧
     (PPU.hsync ppuZ).tdt = ppuZ.tdt ∧ (PPU.hsync ppuZ).oam = ppuZ.oam ∧
     (PPU.hsync ppuZ).bgtm0 = ppuZ.bgtm0 ∧ (PPU.hsync ppuZ).bgtm1 = ppuZ.bgtm1 ∧
     (∀ i, i ≠ 0x04 → (PPU.hsync ppuZ).regs i = ppuZ.regs i)) :=
  ⟨by decide, hsync_amended ppuZ (by decide)⟩

/-- C9: evaluation of the OAM byte-aliasing defect. Writing `0xAB` at
sprite-table offset 2 through the video unit's memory-mapped interface
(global address `0xFE02`) changes the byte read back at offset 0
(global `0xFE00`) from 0 to `0xAB`: the slice implementation selects
the sprite with `addr >> 2` (4-byte records) but the byte within the
record with `addr % 2`, so offsets 2 and 0 collide. -/
theorem oam_offset_alias_eval :
    (ppuWrite8 ppuZ 0xFE02 0xAB).bind (fun p => ppuRead8 p 0xFE00) = some 0xAB ∧
    ppuRead8 ppuZ 0xFE00 = some 0 := by
  decide

/-- C10: with the display-enable bit (bit 7 of LCDC) clear, `rasterize`
produces a buffer of the same length in which every byte is the blank
shade `0xFF`, whatever the rest of the video-unit state contains. -/
theorem rasterize_disabled_blank (p : PPU) (vbuf : List Nat)
    (h : p.lcdc &&& 0x80 = 0) :
    (∀ x ∈ p.rasterize vbuf, x = 0xFF) ∧ (p.rasterize vbuf).length = vbuf.length := by
  unfold PPU.rasterize
  rw [if_pos (show (p.lcdc &&& 0x80 == 0) = true from by simp [h])]
  constructor
  · intro x hx
    rcases List.mem_map.mp hx with ⟨y, _, hy⟩
    exact hy.symm
  · exact List.length_map vbuf _

/-- Witness: the blank-rasterization property at the all-zero PPU and a
three-byte buffer. -/
theorem rasterize_disabled_blank_witness :
    ppuZ.lcdc &&& 0x80 = 0 ∧
    ((∀ x ∈ ppuZ.rasterize [1, 2, 3], x = 0xFF) ∧
     (ppuZ.rasterize [1, 2, 3]).length = [1, 2, 3].length) :=
  ⟨by decide, rasterize_disabled_blank ppuZ [1, 2, 3] (by decide)⟩

/-- C4 counterexample: the bus read/write arms for `0x8000..=0x9FFF`
forward the *global* address to the PPU: at `0x8000` the PPU receives
`0x8000`, not the local offset `0x8000 - 0x8000 = 0`. -/
theorem bus_ppu_global_counterexample :
    busRoute 0x8000 = (BusTarget.ppu, 0x8000) ∧ (0x8000 : Nat) - 0x8000 ≠ 0x8000 := by
  decide

/-- Helper: the value of `busRoute` on each mapped range, one
conjunct per arm of the source's address match. -/
theorem busRoute_ranges (a : Nat) :
    (a ≤ 0x3FFF → busRoute a = (.rom00, a)) ∧
    (0x4000 ≤ a → a ≤ 0x7FFF → busRoute a = (.romNN, a - 0x4000)) ∧
    (0x8000 ≤ a → a ≤ 0x9FFF → busRoute a = (.ppu, a)) ∧
    (0xA000 ≤ a → a ≤ 0xBFFF → busRoute a = (.eram, a - 0xA000)) ∧
    (0xC000 ≤ a → a ≤ 0xCFFF → busRoute a = (.wram00, a - 0xC000)) ∧
    (0xD000 ≤ a → a ≤ 0xDFFF → busRoute a = (.wramNN, a - 0xD000)) ∧
    (0xE000 ≤ a → a ≤ 0xEFFF → busRoute a = (.wram00, a - 0xE000)) ∧
    (0xF000 ≤ a → a ≤ 0xFDFF → busRoute a = (.wramNN, a - 0xF000)) ∧
    (0xFE00 ≤ a → a ≤ 0xFE9F → busRoute a = (.ppu, a)) ∧
    (0xFF10 ≤ a → a ≤ 0xFF3F → busRoute a = (.apu, a - 0xFF10)) ∧
    (0xFF40 ≤ a → a ≤ 0xFF6F → busRoute a = (.ppu, a)) ∧
    (0xFF80 ≤ a → a ≤ 0xFFFE → busRoute a = (.hram, a - 0xFF80)) := by
  refine ⟨fun hu0 => ?_, fun hl1 hu1 => ?_, fun hl2 hu2 => ?_, fun hl3 hu3 => ?_, fun hl4 hu4 => ?_, fun hl5 hu5 => ?_, fun hl6 hu6 => ?_, fun hl7 hu7 => ?_, fun hl8 hu8 => ?_, fun hl9 hu9 => ?_, fun hl10 hu10 => ?_, fun hl11 hu11 => ?_⟩ <;> unfold busRoute
  · -- range 0x0000..0x3FFF
    have p0 : a ≤ 0x3FFF := by omega
    rw [if_pos p0]
  · -- range 0x4000..0x7FFF
    have n1x0 : ¬ a ≤ 0x3FFF := by omega
    have p1 : a ≤ 0x7FFF := by omega
    rw [if_neg n1x0, if_pos p1]
  · -- range 0x8000..0x9FFF
    have n2x0 : ¬ a ≤ 0x3FFF := by omega
    have n2x1 : ¬ a ≤ 0x7FFF := by omega
    have p2 : a ≤ 0x9FFF := by omega
    rw [if_neg n2x0, if_neg n2x1, if_pos p2]
  · -- range 0xA000..0xBFFF
    have n3x0 : ¬ a ≤ 0x3FFF := by omega
    have n3x1 : ¬ a ≤ 0x7FFF := by omega
    have n3x2 : ¬ a ≤ 0x9FFF := by omega
    have p3 : a ≤ 0xBFFF := by omega
    rw [if_neg n3x0, if_neg n3x1, if_neg n3x2, if_pos p3]
  · -- range 0xC000..0xCFFF
    have n4x0 : ¬ a ≤ 0x3FFF := by omega
    have n4x1 : ¬ a ≤ 0x7FFF := by omega
    have n4x2 : ¬ a ≤ 0x9FFF := by omega
    have n4x3 : ¬ a ≤ 0xBFFF := by omega
    have p4 : a ≤ 0xCFFF := by omega
    rw [if_neg n4x0, if_neg n4x1, if_neg n4x2, if_neg n4x3, if_pos p4]
  · -- range 0xD000..0xDFFF
    have n5x0 : ¬ a ≤ 0x3FFF := by omega
    have n5x1 : ¬ a ≤ 0x7FFF := by omega
    have n5x2 : ¬ a ≤ 0x9FFF := by omega
    have n5x3 : ¬ a ≤ 0xBFFF := by omega
    have n5x4 : ¬ a ≤ 0xCFFF := by omega
    have p5 : a ≤ 0xDFFF := by omega
    rw [if_neg n5x0, if_neg n5x1, if_neg n5x2, if_neg n5x3, if_neg n5x4, if_pos p5]
  · -- range 0xE000..0xEFFF
    have n6x0 : ¬ a ≤ 0x3FFF := by omega
    have n6x1 : ¬ a ≤ 0x7FFF := by omega
    have n6x2 : ¬ a ≤ 0x9FFF := by omega
    have n6x3 : ¬ a ≤ 0xBFFF := by omega
    have n6x4 : ¬ a ≤ 0xCFFF := by omega
    have n6x5 : ¬ a ≤ 0xDFFF := by omega
    have p6 : a ≤ 0xEFFF := by omega
    rw [if_neg n6x0, if_neg n6x1, if_neg n6x2, if_neg n6x3, if_neg n6x4, if_neg n6x5, if_pos p6]
  · -- range 0xF000..0xFDFF
    have n7x0 : ¬ a ≤ 0x3FFF := by omega
    have n7x1 : ¬ a ≤ 0x7FFF := by omega
    have n7x2 : ¬ a ≤ 0x9FFF := by omega
    have n7x3 : ¬ a ≤ 0xBFFF := by omega
    have n7x4 : ¬ a ≤ 0xCFFF := by omega
    have n7x5 : ¬ a ≤ 0xDFFF := by omega
    have n7x6 : ¬ a ≤ 0xEFFF := by omega
    have p7 : a ≤ 0xFDFF := by omega
    rw [if_neg n7x0, if_neg n7x1, if_neg n7x2, if_neg n7x3, if_neg n7x4, if_neg n7x5, if_neg n7x6, if_pos p7]
  · -- range 0xFE00..0xFE9F
    have n8x0 : ¬ a ≤ 0x3FFF := by omega
    have n8x1 : ¬ a ≤ 0x7FFF := by omega
    have n8x2 : ¬ a ≤ 0x9FFF := by omega
    have n8x3 : ¬ a ≤ 0xBFFF := by omega
    have n8x4 : ¬ a ≤ 0xCFFF := by omega
    have n8x5 : ¬ a ≤ 0xDFFF := by omega
    have n8x6 : ¬ a ≤ 0xEFFF := by omega
    have n8x7 : ¬ a ≤ 0xFDFF := by omega
    have p8 : a ≤ 0xFE9F := by omega
    rw [if_neg n8x0, if_neg n8x1, if_neg n8x2, if_neg n8x3, if_neg n8x4, if_neg n8x5, if_neg n8x6, if_neg n8x7, if_pos p8]
  · -- range 0xFF10..0xFF3F
    have n9x0 : ¬ a ≤ 0x3FFF := by omega
    have n9x1 : ¬ a ≤ 0x7FFF := by omega
    have n9x2 : ¬ a ≤ 0x9FFF := by omega
    have n9x3 : ¬ a ≤ 0xBFFF := by omega
    have n9x4 : ¬ a ≤ 0xCFFF := by omega
    have n9x5 : ¬ a ≤ 0xDFFF := by omega
    have n9x6 : ¬ a ≤ 0xEFFF := by omega
    have n9x7 : ¬ a ≤ 0xFDFF := by omega
    have n9x8 : ¬ a ≤ 0xFE9F := by omega
    have p9 : 0xFF10 ≤ a ∧ a ≤ 0xFF3F := by omega
    rw [if_neg n9x0, if_neg n9x1, if_neg n9x2, if_neg n9x3, if_neg n9x4, if_neg n9x5, if_neg n9x6, if_neg n9x7, if_neg n9x8, if_pos p9]
  · -- range 0xFF40..0xFF6F
    have n10x0 : ¬ a ≤ 0x3FFF := by omega
    have n10x1 : ¬ a ≤ 0x7FFF := by omega
    have n10x2 : ¬ a ≤ 0x9FFF := by omega
    have n10x3 : ¬ a ≤ 0xBFFF := by omega
    have n10x4 : ¬ a ≤ 0xCFFF := by omega
    have n10x5 : ¬ a ≤ 0xDFFF := by omega
    have n10x6 : ¬ a ≤ 0xEFFF := by omega
    have n10x7 : ¬ a ≤ 0xFDFF := by omega
    have n10x8 : ¬ a ≤ 0xFE9F := by omega
    have n10x9 : ¬ (0xFF10 ≤ a ∧ a ≤ 0xFF3F) := by omega
    have p10 : 0xFF40 ≤ a ∧ a ≤ 0xFF6F := by omega
    rw [if_neg n10x0, if_neg n10x1, if_neg n10x2, if_neg n10x3, if_neg n10x4, if_neg n10x5, if_neg n10x6, if_neg n10x7, if_neg n10x8, if_neg n10x9, if_pos p10]
  · -- range 0xFF80..0xFFFE
    have n11x0 : ¬ a ≤ 0x3FFF := by omega
    have n11x1 : ¬ a ≤ 0x7FFF := by omega
    have n11x2 : ¬ a ≤ 0x9FFF := by omega
    have n11x3 : ¬ a ≤ 0xBFFF := by omega
    have n11x4 : ¬ a ≤ 0xCFFF := by omega
    have n11x5 : ¬ a ≤ 0xDFFF := by omega
    have n11x6 : ¬ a ≤ 0xEFFF := by omega
    have n11x7 : ¬ a ≤ 0xFDFF := by omega
    have n11x8 : ¬ a ≤ 0xFE9F := by omega
    have n11x9 : ¬ (0xFF10 ≤ a ∧ a ≤ 0xFF3F) := by omega
    have n11x10 : ¬ (0xFF40 ≤ a ∧ a ≤ 0xFF6F) := by omega
    have p11 : 0xFF80 ≤ a ∧ a ≤ 0xFFFE := by omega
    rw [if_neg n11x0, if_neg n11x1, if_neg n11x2, if_neg n11x3, if_neg n11x4, if_neg n11x5, if_neg n11x6, if_neg n11x7, if_neg n11x8, if_neg n11x9, if_neg n11x10, if_pos p11]

/-- C4 amended: bus dispatch forwards the global address minus the
range base to the memory blocks and to the APU, but forwards the global
address unchanged on all three PPU-owned ranges (the PPU performs its
own translation internally). -/
theorem bus_dispatch_offsets (a : Nat) :
    (a ≤ 0x3FFF → busRoute a = (.rom00, a)) ∧
    (0x4000 ≤ a → a ≤ 0x7FFF → busRoute a = (.romNN, a - 0x4000)) ∧
    (0x8000 ≤ a → a ≤ 0x9FFF → busRoute a = (.ppu, a)) ∧
    (0xA000 ≤ a → a ≤ 0xBFFF → busRoute a = (.eram, a - 0xA000)) ∧
    (0xC000 ≤ a → a ≤ 0xCFFF → busRoute a = (.wram00, a - 0xC000)) ∧
    (0xD000 ≤ a → a ≤ 0xDFFF → busRoute a = (.wramNN, a - 0xD000)) ∧
    (0xE000 ≤ a → a ≤ 0xEFFF → busRoute a = (.wram00, a - 0xE000)) ∧
    (0xF000 ≤ a → a ≤ 0xFDFF → busRoute a = (.wramNN, a - 0xF000)) ∧
    (0xFE00 ≤ a → a ≤ 0xFE9F → busRoute a = (.ppu, a)) ∧
    (0xFF10 ≤ a → a ≤ 0xFF3F → busRoute a = (.apu, a - 0xFF10)) ∧
    (0xFF40 ≤ a → a ≤ 0xFF6F → busRoute a = (.ppu, a)) ∧
    (0xFF80 ≤ a → a ≤ 0xFFFE → busRoute a = (.hram, a - 0xFF80)) :=
  busRoute_ranges a

/-- Witness: external RAM at `0xA123` receives the local offset
`0x123`. -/
theorem bus_dispatch_offsets_witness :
    busRoute 0xA123 = (.eram, 0xA123 - 0xA000) :=
  (bus_dispatch_offsets 0xA123).2.2.2.1 (by decide) (by decide)

/-- C7: echo RAM aliasing. For every address `a` in the echo ranges
(`0xE000..=0xEFFF` mirroring work-RAM bank 0, `0xF000..=0xFDFF`
mirroring bank n), a byte written through the bus at the echo address
is read back through the bus at the primary address `a - 0x2000`, and
vice versa, because both ranges dispatch to the same memory block at
the same translated offset. -/
theorem echo_ram_alias (B : Bus) (a v : Nat) (h1 : 0xE000 ≤ a) (h2 : a ≤ 0xFDFF) :
    ((busWrite8 B a v).bind fun B' => busRead8 B' (a - 0x2000)) = some v ∧
    ((busWrite8 B (a - 0x2000) v).bind fun B' => busRead8 B' a) = some v := by
  by_cases hc : a ≤ 0xEFFF
  · obtain ⟨o, rfl⟩ : ∃ o, a = 0xE000 + o := ⟨a - 0xE000, by omega⟩
    have ho : o ≤ 0xFFF := by omega
    have hsub : 0xE000 + o - 0x2000 = 0xC000 + o := by omega
    rw [hsub]
    have hrE : busRoute (0xE000 + o) = (BusTarget.wram00, o) := by
      have h := (busRoute_ranges (0xE000 + o)).2.2.2.2.2.2.1 (by omega) (by omega)
      have hx : 0xE000 + o - 0xE000 = o := by omega
      rw [h, hx]
    have hrC : busRoute (0xC000 + o) = (BusTarget.wram00, o) := by
      have h := (busRoute_ranges (0xC000 + o)).2.2.2.2.1 (by omega) (by omega)
      have hx : 0xC000 + o - 0xC000 = o := by omega
      rw [h, hx]
    have hwE : busWrite8 B (0xE000 + o) v
        = some { B with wram_00 := B.wram_00.write8 o v } := by
      unfold busWrite8
      rw [hrE]
    have hwC : busWrite8 B (0xC000 + o) v
        = some { B with wram_00 := B.wram_00.write8 o v } := by
      unfold busWrite8
      rw [hrC]
    have hrdE : ∀ B' : Bus, busRead8 B' (0xE000 + o) = some (B'.wram_00 o) := by
      intro B'
      unfold busRead8
      rw [hrE]
    have hrdC : ∀ B' : Bus, busRead8 B' (0xC000 + o) = some (B'.wram_00 o) := by
      intro B'
      unfold busRead8
      rw [hrC]
    constructor
    · rw [hwE, Option.some_bind, hrdC]
      simp [Memory.write8]
    · rw [hwC, Option.some_bind, hrdE]
      simp [Memory.write8]
  · obtain ⟨o, rfl⟩ : ∃ o, a = 0xF000 + o := ⟨a - 0xF000, by omega⟩
    have ho : o ≤ 0xDFF := by omega
    have hsub : 0xF000 + o - 0x2000 = 0xD000 + o := by omega
    rw [hsub]
    have hrF : busRoute (0xF000 + o) = (BusTarget.wramNN, o) := by
      have h := (busRoute_ranges (0xF000 + o)).2.2.2.2.2.2.2.1 (by omega) (by omega)
      have hx : 0xF000 + o - 0xF000 = o := by omega
      rw [h, hx]
    have hrD : busRoute (0xD000 + o) = (BusTarget.wramNN, o) := by
      have h := (busRoute_ranges (0xD000 + o)).2.2.2.2.2.1 (by omega) (by omega)
      have hx : 0xD000 + o - 0xD000 = o := by omega
      rw [h, hx]
    have hwF : busWrite8 B (0xF000 + o) v
        = some { B with wram_nn := B.wram_nn.write8 o v } := by
      unfold busWrite8
      rw [hrF]
    have hwD : busWrite8 B (0xD000 + o) v
        = some { B with wram_nn := B.wram_nn.write8 o v } := by
      unfold busWrite8
      rw [hrD]
    have hrdF : ∀ B' : Bus, busRead8 B' (0xF000 + o) = some (B'.wram_nn o) := by
      intro B'
      unfold busRead8
      rw [hrF]
    have hrdD : ∀ B' : Bus, busRead8 B' (0xD000 + o) = some (B'.wram_nn o) := by
      intro B'
      unfold busRead8
      rw [hrD]
    constructor
    · rw [hwF, Option.some_bind, hrdD]
      simp [Memory.write8]
    · rw [hwD, Option.some_bind, hrdF]
      simp [Memory.write8]

/-- Witness: a byte written at echo address `0xE123` is read back at
work-RAM address `0xC123`, and conversely, on the all-zero bus. -/
theorem echo_ram_alias_witness :
    (((busWrite8 busZ 0xE123 0xAB).bind fun B' => busRead8 B' (0xE123 - 0x2000)) = some 0xAB) ∧
    (((busWrite8 busZ (0xE123 - 0x2000) 0xAB).bind fun B' => busRead8 B' 0xE123) = some 0xAB) :=
  echo_ram_alias busZ 0xE123 0xAB (by decide) (by decide)

/-- C5: CB-prefix dispatch in `fetch_immediate`. With the CB prefix
fetched (`cb_mode` set, the 2-byte prefix metadata loaded, operand
reset), the next fetched byte `d` becomes the effective opcode; if its
low 3 bits equal 6 the source operand is forced to `(HL)` addressing,
8 cycles are added to the remaining budget and the engine inserts a
`FetchMemory` phase, while for any other byte (with the table's plain
register source) the budget is untouched and the phase proceeds
directly to `exec` — one extra memory phase and 8 extra cycles for the
`(HL)` form. -/
theorem cb_prefix_hl_dispatch (sem : Sem β) (c : CPU) (b1 b2 : β) (d6 dr : Nat)
    (hst : c.state = .FetchByte0) (hcb : c.cb_mode = true) (hop : c.operand = 0)
    (hsz : ¬ 2 < c.info.size) (hsrc : c.info.src = .Register)
    (h6lo : d6 &&& 0x7 = 0x6) (h6lt : d6 < 256)
    (hrlo : ¬ dr &&& 0x7 = 0x6) (hrlt : dr < 256)
    (hr1 : sem.bus.read8 b1 c.pc = .ok d6)
    (hr2 : sem.bus.read8 b2 c.pc = .ok dr) :
    fetch_immediate sem c b1 =
      ({ c with pc := wadd16 c.pc 1, operand := d6, opcode := d6,
                info := { c.info with src := .Memory .HL },
                remaining_cycles := wadd8 c.remaining_cycles 8,
                state := .FetchMemory }, b1, none) ∧
    fetch_immediate sem c b2 =
      ((exec sem { c with pc := wadd16 c.pc 1, operand := dr, opcode := dr }).1, b2,
       (exec sem { c with pc := wadd16 c.pc 1, operand := dr, opcode := dr }).2) := by
  constructor
  · simp only [fetch_immediate, fetch_pc, hr1, hst, hcb, hop, Nat.zero_or,
      Nat.mod_eq_of_lt h6lt, h6lo, beq_self_eq_true, if_true, if_neg hsz]
  · have hbf : (dr &&& 0x7 == 0x6) = false := beq_eq_false_iff_ne.mpr hrlo
    simp only [fetch_immediate, fetch_pc, hr2, hst, hcb, hop, Nat.zero_or,
      Nat.mod_eq_of_lt hrlt, hbf, Bool.false_eq_true, if_false, if_true,
      eq_self_iff_true, if_neg hsz, hsrc]

/-- Witness: the CB dispatch comparison at a concrete mid-CB CPU, with
secondary byte `0x06` (low 3 bits 6) versus `0x00`. -/
theorem cb_prefix_hl_dispatch_witness :
    fetch_immediate semB cpuCb true =
      ({ cpuCb with pc := wadd16 cpuCb.pc 1, operand := 0x06, opcode := 0x06,
                    info := { cpuCb.info with src := .Memory .HL },
                    remaining_cycles := wadd8 cpuCb.remaining_cycles 8,
                    state := .FetchMemory }, true, none) ∧
    fetch_immediate semB cpuCb false =
      ((exec semB { cpuCb with pc := wadd16 cpuCb.pc 1, operand := 0, opcode := 0 }).1, false,
       (exec semB { cpuCb with pc := wadd16 cpuCb.pc 1, operand := 0, opcode := 0 }).2) :=
  cb_prefix_hl_dispatch semB cpuCb true false 0x06 0x00 rfl rfl rfl (by decide) rfl
    (by decide) (by decide) (by decide) (by decide) rfl rfl

/-- Helper: `wadd8` is plain addition below 256. -/
theorem wadd8_exact {a b : Nat} (h : a + b < 256) : wadd8 a b = a + b := by
  unfold wadd8
  omega

/-- Helper: `wsub8` is plain subtraction when it cannot wrap. -/
theorem wsub8_exact {a b : Nat} (hb : b ≤ a) (ha : a < 256) : wsub8 a b = a - b := by
  unfold wsub8
  have h1 : a % 256 = a := Nat.mod_eq_of_lt ha
  have h2 : b % 256 = b := Nat.mod_eq_of_lt (by omega)
  rw [h1, h2]
  omega

/-- Helper: `MidOk` and `ticksLeft` only depend on the phase, the
budget, the metadata and the CB flag of a CPU. -/
theorem midok_of_proj (tk : Bool) (wo : Option WritebackOp) (c c' : CPU)
    (h1 : c'.state = c.state) (h2 : c'.remaining_cycles = c.remaining_cycles)
    (h3 : c'.info = c.info) (h4 : c'.cb_mode = c.cb_mode) :
    (MidOk tk wo c → MidOk tk wo c') ∧ ticksLeft tk c' = ticksLeft tk c := by
  unfold MidOk ticksLeft PreOk phasesLeft adjD
  rw [h1, h2, h3, h4]
  exact ⟨id, rfl⟩

/-- Helper: a mid-instruction configuration with no ticks left is
already in `FetchOpcode`. -/
theorem ticksLeft_zero (tk : Bool) (wo : Option WritebackOp) (c : CPU)
    (hmid : MidOk tk wo c) (h0 : ticksLeft tk c = 0) : c.state = .FetchOpcode := by
  cases hs : c.state with
  | FetchOpcode => rfl
  | Delay m =>
    simp only [ticksLeft, hs] at h0
    omega
  | Writeback =>
    simp only [MidOk, hs] at hmid
    simp only [ticksLeft, hs] at h0
    omega
  | FetchByte0 =>
    simp only [ticksLeft, phasesLeft, hs] at h0
    omega
  | FetchByte1 =>
    simp only [ticksLeft, phasesLeft, hs] at h0
    omega
  | FetchMemory =>
    simp only [ticksLeft, phasesLeft, hs] at h0
    omega

/-- Helper: on a successful phase, `tick` returns the phase's bus and
no event, and changes only the halt-suppression flags beyond what the
phase produced. -/
theorem tick_of_phase_ok (sem : Sem β) (c : CPU) (b : β) (c1 : CPU) (b1 : β)
    (h : tickPhase sem { c with remaining_cycles := wsub8 c.remaining_cycles 4 } b
          = (c1, b1, none)) :
    (tick sem c b).2.1 = b1 ∧ (tick sem c b).2.2 = none ∧
    (tick sem c b).1.state = c1.state ∧
    (tick sem c b).1.remaining_cycles = c1.remaining_cycles ∧
    (tick sem c b).1.info = c1.info ∧
    (tick sem c b).1.cb_mode = c1.cb_mode ∧
    (tick sem c b).1.write_op = c1.write_op := by
  simp only [tick, h]
  by_cases hcond : (c1.should_halt && c1.ignore_next_halt) = true
  · simp only [if_pos hcond]
    exact ⟨trivial, trivial, trivial, trivial, trivial, trivial, trivial⟩
  · simp only [if_neg hcond]
    exact ⟨trivial, trivial, trivial, trivial, trivial, trivial, trivial⟩

/-- Helper: behavior of `exec` under a steady opcode semantics — no
failure, budget increased by exactly the branch adjustment, the queued
writeback as dictated by the semantics, and the next phase chosen from
the writeback queue and the adjusted budget. -/
theorem exec_post (sem : Sem β) (tk : Bool) (wo : Option WritebackOp) (c : CPU)
    (hop : OpSteady sem.op tk wo) (hcb : c.cb_mode = false)
    (ht : c.info.taken < 256) (_hu : c.info.untaken < 256)
    (hut : c.info.untaken ≤ c.info.taken)
    (hsum : c.remaining_cycles + adjD tk c < 256) :
    (exec sem c).2 = none ∧
    (exec sem c).1.remaining_cycles = c.remaining_cycles + adjD tk c ∧
    (exec sem c).1.write_op = wo ∧
    (exec sem c).1.state =
      (if wo.isSome then CpuState.Writeback
       else if 0 < c.remaining_cycles + adjD tk c then
         CpuState.Delay ((c.remaining_cycles + adjD tk c - 1) / 4)
       else CpuState.FetchOpcode) := by
  rcases hsem : sem.op c with ⟨c1, e1⟩
  have he1 : e1 = none := by
    have hx := hop.op_err c
    rw [hsem] at hx
    exact hx
  subst he1
  have hbt : c1.branch_taken = tk := by
    have hx := hop.op_bt c
    rw [hsem] at hx
    exact hx
  have hrc : c1.remaining_cycles = c.remaining_cycles := by
    have hx := hop.op_rc c
    rw [hsem] at hx
    exact hx
  have hinfo : c1.info = c.info := by
    have hx := hop.op_info c
    rw [hsem] at hx
    exact hx
  have hwo : c1.write_op = wo := by
    have hx := hop.op_wo c
    rw [hsem] at hx
    exact hx
  cases tk with
  | false =>
    have hadj : adjD false c = 0 := by simp [adjD]
    simp only [exec, hcb, Bool.not_false, if_true, hsem, hbt, Bool.false_eq_true,
      if_false, hwo, hrc, hadj, Nat.add_zero]
    cases wo with
    | some w =>
      simp only [Option.isSome_some, if_true]
      exact ⟨trivial, trivial, trivial, trivial⟩
    | none =>
      simp only [Option.isSome_none, Bool.false_eq_true, if_false]
      by_cases hpos : 0 < c.remaining_cycles
      · simp only [hrc, if_pos hpos]
        exact ⟨trivial, trivial, trivial, trivial⟩
      · simp only [hrc, if_neg hpos]
        exact ⟨trivial, trivial, trivial, trivial⟩
  | true =>
    have hadj : adjD true c = c.info.taken - c.info.untaken := by simp [adjD]
    have hsum' : c.remaining_cycles + (c.info.taken - c.info.untaken) < 256 := by
      rw [hadj] at hsum
      exact hsum
    have hws : wsub8 c.info.taken c.info.untaken = c.info.taken - c.info.untaken :=
      wsub8_exact hut ht
    have hwa : wadd8 c.remaining_cycles (c.info.taken - c.info.untaken)
        = c.remaining_cycles + (c.info.taken - c.info.untaken) := wadd8_exact hsum'
    simp only [exec, hcb, Bool.not_false, if_true, hsem, hbt, if_true, hwo, hrc,
      hinfo, hadj, hws, hwa]
    cases wo with
    | some w =>
      simp only [Option.isSome_some, if_true]
      exact ⟨trivial, trivial, trivial, trivial⟩
    | none =>
      simp only [Option.isSome_none, Bool.false_eq_true, if_false]
      by_cases hpos : 0 < c.remaining_cycles + (c.info.taken - c.info.untaken)
      · simp only [if_pos hpos]
        exact ⟨trivial, trivial, trivial, trivial⟩
      · simp only [if_neg hpos]
        exact ⟨trivial, trivial, trivial, trivial⟩

/-- Helper: after `exec` under a steady semantics, the configuration is
a well-formed mid-instruction one and its tick count is the adjusted
budget divided by 4. -/
theorem exec_succ (sem : Sem β) (tk : Bool) (wo : Option WritebackOp) (c : CPU)
    (hop : OpSteady sem.op tk wo) (hcb : c.cb_mode = false)
    (ht : c.info.taken < 256) (hu : c.info.untaken < 256)
    (hut : c.info.untaken ≤ c.info.taken)
    (ht4 : c.info.taken % 4 = 0) (hu4 : c.info.untaken % 4 = 0)
    (hr4 : c.remaining_cycles % 4 = 0)
    (hsum : c.remaining_cycles + adjD tk c < 256)
    (hwob : wo.isSome = true → 4 ≤ c.remaining_cycles + adjD tk c) :
    (exec sem c).2 = none ∧ MidOk tk wo (exec sem c).1 ∧
    ticksLeft tk (exec sem c).1 = (c.remaining_cycles + adjD tk c) / 4 := by
  obtain ⟨he, hrc', hwo', hst'⟩ := exec_post sem tk wo c hop hcb ht hu hut hsum
  have hadj4 : adjD tk c % 4 = 0 := by
    unfold adjD
    cases tk
    · simp
    · simp only [if_true]
      omega
  refine ⟨he, ?_, ?_⟩
  · cases hwo2 : wo with
    | some w =>
      rw [hwo2] at hst'
      simp only [Option.isSome_some, if_true] at hst'
      simp only [MidOk, hst', hrc']
      refine ⟨?_, ?_, ?_⟩
      · exact hwob (by rw [hwo2]; rfl)
      · omega
      · omega
    | none =>
      rw [hwo2] at hst'
      simp only [Option.isSome_none, Bool.false_eq_true, if_false] at hst'
      by_cases hpos : 0 < c.remaining_cycles + adjD tk c
      · rw [if_pos hpos] at hst'
        simp only [MidOk, hst']
      · rw [if_neg hpos] at hst'
        simp only [MidOk, hst']
  · cases hwo2 : wo with
    | some w =>
      rw [hwo2] at hst'
      simp only [Option.isSome_some, if_true] at hst'
      simp only [ticksLeft, hst', hrc']
    | none =>
      rw [hwo2] at hst'
      simp only [Option.isSome_none, Bool.false_eq_true, if_false] at hst'
      by_cases hpos : 0 < c.remaining_cycles + adjD tk c
      · rw [if_pos hpos] at hst'
        simp only [ticksLeft, hst']
        omega
      · rw [if_neg hpos] at hst'
        simp only [ticksLeft, hst']
        omega

/-- Helper: lift phase-level facts through `tick` — if the phase on the
budget-decremented CPU succeeds into a well-formed mid-instruction
configuration, so does the whole tick, with the same tick count. -/
theorem tick_lift (sem : Sem β) (tk : Bool) (wo : Option WritebackOp) (c : CPU) (b : β)
    (h : (tickPhase sem { c with remaining_cycles := wsub8 c.remaining_cycles 4 } b).2.2
          = none)
    (hmid1 : MidOk tk wo
      (tickPhase sem { c with remaining_cycles := wsub8 c.remaining_cycles 4 } b).1)
    (htl : ticksLeft tk
      (tickPhase sem { c with remaining_cycles := wsub8 c.remaining_cycles 4 } b).1 + 1
        = ticksLeft tk c) :
    (tick sem c b).2.2 = none ∧ MidOk tk wo (tick sem c b).1 ∧
    ticksLeft tk (tick sem c b).1 + 1 = ticksLeft tk c := by
  rcases htp : tickPhase sem { c with remaining_cycles := wsub8 c.remaining_cycles 4 } b
    with ⟨c1, b1, e1⟩
  rw [htp] at h hmid1 htl
  simp only at h
  subst h
  obtain ⟨_, he', hst', hrc', hinfo', hcb', _⟩ := tick_of_phase_ok sem c b c1 b1 htp
  obtain ⟨hm, ht⟩ := midok_of_proj tk wo c1 (tick sem c b).1 hst' hrc' hinfo' hcb'
  exact ⟨he', hm (by simpa using hmid1), by rw [ht]; simpa using htl⟩

/-- Helper: the `writeback` phase always succeeds on a total bus and
only picks the next phase from the budget; budget, metadata and CB flag
are untouched. -/
theorem writeback_proj (sem : Sem β) (hbus : BusTotal sem.bus) (c : CPU) (b : β) :
    (writeback sem c b).2.2 = none ∧
    (writeback sem c b).1.state =
      (if 0 < c.remaining_cycles then CpuState.Delay ((c.remaining_cycles - 1) / 4)
       else CpuState.FetchOpcode) ∧
    (writeback sem c b).1.remaining_cycles = c.remaining_cycles ∧
    (writeback sem c b).1.info = c.info ∧
    (writeback sem c b).1.cb_mode = c.cb_mode := by
  unfold writeback
  by_cases hpos : 0 < c.remaining_cycles
  · simp only [if_pos hpos]
    rcases hw : c.write_op with _ | w
    · exact ⟨rfl, rfl, rfl, rfl, rfl⟩
    · cases w with
      | Write8 dest d8 => exact ⟨hbus.w8 b dest d8, rfl, rfl, rfl, rfl⟩
      | Write16 dest d16 => exact ⟨hbus.w16 b dest d16, rfl, rfl, rfl, rfl⟩
      | Push d16 =>
        exact ⟨hbus.w16 b _ d16, rfl, rfl, rfl, rfl⟩
      | Return =>
        obtain ⟨v, hv⟩ := hbus.r16 b c.sp
        simp only [hv]
        exact ⟨trivial, trivial, trivial, trivial, trivial⟩
  · simp only [if_neg hpos]
    rcases hw : c.write_op with _ | w
    · exact ⟨rfl, rfl, rfl, rfl, rfl⟩
    · cases w with
      | Write8 dest d8 => exact ⟨hbus.w8 b dest d8, rfl, rfl, rfl, rfl⟩
      | Write16 dest d16 => exact ⟨hbus.w16 b dest d16, rfl, rfl, rfl, rfl⟩
      | Push d16 =>
        exact ⟨hbus.w16 b _ d16, rfl, rfl, rfl, rfl⟩
      | Return =>
        obtain ⟨v, hv⟩ := hbus.r16 b c.sp
        simp only [hv]
        exact ⟨trivial, trivial, trivial, trivial, trivial⟩

/-- Helper: one tick from any well-formed non-`FetchOpcode`
mid-instruction configuration succeeds, stays well-formed, and
decreases the tick count by exactly one. -/
theorem mid_step (sem : Sem β) (tk : Bool) (wo : Option WritebackOp) (c : CPU) (b : β)
    (hbus : BusTotal sem.bus) (hop : OpSteady sem.op tk wo)
    (hmid : MidOk tk wo c) (hne : c.state ≠ .FetchOpcode) :
    (tick sem c b).2.2 = none ∧ MidOk tk wo (tick sem c b).1 ∧
    ticksLeft tk (tick sem c b).1 + 1 = ticksLeft tk c := by
  cases hs : c.state with
  | FetchOpcode => exact absurd hs hne
  | Delay m =>
    cases m with
    | zero =>
      apply tick_lift
      · simp only [tickPhase, hs]
      · simp only [tickPhase, hs, MidOk]
      · simp only [tickPhase, hs, ticksLeft]
    | succ k =>
      apply tick_lift
      · simp only [tickPhase, hs]
      · simp only [tickPhase, hs, MidOk]
      · simp only [tickPhase, hs, ticksLeft]
  | Writeback =>
    simp only [MidOk, hs] at hmid
    obtain ⟨h4r, hr4m, hr256⟩ := hmid
    have hsub : wsub8 c.remaining_cycles 4 = c.remaining_cycles - 4 :=
      wsub8_exact (by omega) hr256
    have htp : tickPhase sem { c with remaining_cycles := wsub8 c.remaining_cycles 4 } b
        = writeback sem { c with remaining_cycles := wsub8 c.remaining_cycles 4 } b := by
      simp only [tickPhase, hs]
    obtain ⟨hw0, hw1, hw2, hw3, hw4⟩ :=
      writeback_proj sem hbus { c with remaining_cycles := wsub8 c.remaining_cycles 4 } b
    refine tick_lift sem tk wo c b ?_ ?_ ?_
    · rw [htp]
      exact hw0
    · rw [htp]
      by_cases hpos : 0 < wsub8 c.remaining_cycles 4
      · rw [if_pos hpos] at hw1
        obtain ⟨hmm, _⟩ := midok_of_proj tk wo
          { c with state := CpuState.Delay ((wsub8 c.remaining_cycles 4 - 1) / 4),
                   remaining_cycles := wsub8 c.remaining_cycles 4 }
          (writeback sem { c with remaining_cycles := wsub8 c.remaining_cycles 4 } b).1
          (by rw [hw1]) (by rw [hw2]) (by rw [hw3]) (by rw [hw4])
        apply hmm
        simp only [MidOk]
      · rw [if_neg hpos] at hw1
        obtain ⟨hmm, _⟩ := midok_of_proj tk wo
          { c with state := CpuState.FetchOpcode,
                   remaining_cycles := wsub8 c.remaining_cycles 4 }
          (writeback sem { c with remaining_cycles := wsub8 c.remaining_cycles 4 } b).1
          (by rw [hw1]) (by rw [hw2]) (by rw [hw3]) (by rw [hw4])
        apply hmm
        simp only [MidOk]
    · rw [htp]
      by_cases hpos : 0 < wsub8 c.remaining_cycles 4
      · rw [if_pos hpos] at hw1
        obtain ⟨_, htt⟩ := midok_of_proj tk wo
          { c with state := CpuState.Delay ((wsub8 c.remaining_cycles 4 - 1) / 4),
                   remaining_cycles := wsub8 c.remaining_cycles 4 }
          (writeback sem { c with remaining_cycles := wsub8 c.remaining_cycles 4 } b).1
          (by rw [hw1]) (by rw [hw2]) (by rw [hw3]) (by rw [hw4])
        rw [htt]
        simp only [ticksLeft, hs]
        rw [hsub] at hpos ⊢
        omega
      · rw [if_neg hpos] at hw1
        obtain ⟨_, htt⟩ := midok_of_proj tk wo
          { c with state := CpuState.FetchOpcode,
                   remaining_cycles := wsub8 c.remaining_cycles 4 }
          (writeback sem { c with remaining_cycles := wsub8 c.remaining_cycles 4 } b).1
          (by rw [hw1]) (by rw [hw2]) (by rw [hw3]) (by rw [hw4])
        rw [htt]
        simp only [ticksLeft, hs]
        rw [hsub] at hpos
        omega
  | FetchByte0 =>
    simp only [MidOk, hs] at hmid
    unfold PreOk at hmid
    obtain ⟨hcb, ht, hu, hut, ht4, hu4, hr256, hr4m, hpl, hbound, hwob⟩ := hmid
    simp only [phasesLeft, hs] at hpl hbound hwob
    simp only [adjD] at hbound hwob
    obtain ⟨d8, hd8⟩ := hbus.r8 b c.pc
    have htp : tickPhase sem { c with remaining_cycles := wsub8 c.remaining_cycles 4 } b
        = fetch_immediate sem { c with remaining_cycles := wsub8 c.remaining_cycles 4 } b := by
      simp only [tickPhase, hs]
    have hr4le : 4 ≤ c.remaining_cycles := by omega
    have hsub : wsub8 c.remaining_cycles 4 = c.remaining_cycles - 4 :=
      wsub8_exact hr4le hr256
    by_cases hsz : 2 < c.info.size
    · rw [if_pos hsz] at hpl hbound hwob
      have hfi : fetch_immediate sem
            { c with remaining_cycles := wsub8 c.remaining_cycles 4 } b
          = ({ c with
                remaining_cycles := wsub8 c.remaining_cycles 4,
                pc := wadd16 c.pc 1,
                operand := c.operand ||| d8,
                state := CpuState.FetchByte1 }, b, none) := by
        simp only [fetch_immediate, fetch_pc, hd8, hs, hcb, Bool.false_eq_true, if_false,
          if_pos hsz]
      refine tick_lift sem tk wo c b ?_ ?_ ?_
      · rw [htp, hfi]
      · rw [htp, hfi]
        simp only [MidOk, PreOk, phasesLeft, adjD, hsub]
        refine ⟨hcb, ht, hu, hut, ht4, hu4, by omega, by omega, ?_, ?_, ?_⟩
        · omega
        · omega
        · intro hww
          have := hwob hww
          omega
      · rw [htp, hfi]
        simp only [ticksLeft, phasesLeft, adjD, hs, if_pos hsz, hsub]
        omega
    · rw [if_neg hsz] at hpl hbound hwob
      rcases hsv : c.info.src with _ | _ | m
      · simp only [hsv, memSrc, Bool.false_eq_true, if_false] at hpl hbound hwob
        have hfi : fetch_immediate sem
              { c with remaining_cycles := wsub8 c.remaining_cycles 4 } b
            = ((exec sem { c with
                  remaining_cycles := wsub8 c.remaining_cycles 4,
                  pc := wadd16 c.pc 1,
                  operand := c.operand ||| d8 }).1, b,
               (exec sem { c with
                  remaining_cycles := wsub8 c.remaining_cycles 4,
                  pc := wadd16 c.pc 1,
                  operand := c.operand ||| d8 }).2) := by
          simp only [fetch_immediate, fetch_pc, hd8, hs, hcb, Bool.false_eq_true,
            if_false, if_neg hsz, hsv]
        obtain ⟨hee, hem, het⟩ := exec_succ sem tk wo
          { c with
              remaining_cycles := wsub8 c.remaining_cycles 4,
              pc := wadd16 c.pc 1,
              operand := c.operand ||| d8 }
          hop hcb ht hu hut ht4 hu4
          (show wsub8 c.remaining_cycles 4 % 4 = 0 by omega)
          (by show wsub8 c.remaining_cycles 4 + adjD tk c < 256
              simp only [adjD]
              omega)
          (by intro hww
              show 4 ≤ wsub8 c.remaining_cycles 4 + adjD tk c
              simp only [adjD]
              have := hwob hww
              omega)
        refine tick_lift sem tk wo c b ?_ ?_ ?_
        · rw [htp, hfi]
          exact hee
        · rw [htp, hfi]
          exact hem
        · rw [htp, hfi, het]
          simp only [ticksLeft, phasesLeft, adjD, hs, if_neg hsz, hsv, memSrc,
            Bool.false_eq_true, if_false, hsub]
      · simp only [hsv, memSrc, Bool.false_eq_true, if_false] at hpl hbound hwob
        have hfi : fetch_immediate sem
              { c with remaining_cycles := wsub8 c.remaining_cycles 4 } b
            = ((exec sem { c with
                  remaining_cycles := wsub8 c.remaining_cycles 4,
                  pc := wadd16 c.pc 1,
                  operand := c.operand ||| d8 }).1, b,
               (exec sem { c with
                  remaining_cycles := wsub8 c.remaining_cycles 4,
                  pc := wadd16 c.pc 1,
                  operand := c.operand ||| d8 }).2) := by
          simp only [fetch_immediate, fetch_pc, hd8, hs, hcb, Bool.false_eq_true,
            if_false, if_neg hsz, hsv]
        obtain ⟨hee, hem, het⟩ := exec_succ sem tk wo
          { c with
              remaining_cycles := wsub8 c.remaining_cycles 4,
              pc := wadd16 c.pc 1,
              operand := c.operand ||| d8 }
          hop hcb ht hu hut ht4 hu4
          (show wsub8 c.remaining_cycles 4 % 4 = 0 by omega)
          (by show wsub8 c.remaining_cycles 4 + adjD tk c < 256
              simp only [adjD]
              omega)
          (by intro hww
              show 4 ≤ wsub8 c.remaining_cycles 4 + adjD tk c
              simp only [adjD]
              have := hwob hww
              omega)
        refine tick_lift sem tk wo c b ?_ ?_ ?_
        · rw [htp, hfi]
          exact hee
        · rw [htp, hfi]
          exact hem
        · rw [htp, hfi, het]
          simp only [ticksLeft, phasesLeft, adjD, hs, if_neg hsz, hsv, memSrc,
            Bool.false_eq_true, if_false, hsub]
      · simp only [hsv, memSrc, if_true] at hpl hbound hwob
        have hfi : fetch_immediate sem
              { c with remaining_cycles := wsub8 c.remaining_cycles 4 } b
            = ({ c with
                  remaining_cycles := wsub8 c.remaining_cycles 4,
                  pc := wadd16 c.pc 1,
                  operand := c.operand ||| d8,
                  state := CpuState.FetchMemory }, b, none) := by
          simp only [fetch_immediate, fetch_pc, hd8, hs, hcb, Bool.false_eq_true,
            if_false, if_neg hsz, hsv]
        refine tick_lift sem tk wo c b ?_ ?_ ?_
        · rw [htp, hfi]
        · rw [htp, hfi]
          simp only [MidOk, PreOk, phasesLeft, adjD, hsv, memSrc, if_true, hsub]
          refine ⟨⟨hcb, ht, hu, hut, ht4, hu4, by omega, by omega, ?_, ?_, ?_⟩, trivial⟩
          · omega
          · omega
          · intro hww
            have := hwob hww
            omega
        · rw [htp, hfi]
          simp only [ticksLeft, phasesLeft, adjD, hs, if_neg hsz, hsv, memSrc, if_true, hsub]
          omega
  | FetchByte1 =>
    simp only [MidOk, hs] at hmid
    unfold PreOk at hmid
    obtain ⟨hcb, ht, hu, hut, ht4, hu4, hr256, hr4m, hpl, hbound, hwob⟩ := hmid
    simp only [phasesLeft, hs] at hpl hbound hwob
    simp only [adjD] at hbound hwob
    obtain ⟨d8, hd8⟩ := hbus.r8 b c.pc
    have htp : tickPhase sem { c with remaining_cycles := wsub8 c.remaining_cycles 4 } b
        = fetch_immediate sem { c with remaining_cycles := wsub8 c.remaining_cycles 4 } b := by
      simp only [tickPhase, hs]
    have hr4le : 4 ≤ c.remaining_cycles := by omega
    have hsub : wsub8 c.remaining_cycles 4 = c.remaining_cycles - 4 :=
      wsub8_exact hr4le hr256
    rcases hsv : c.info.src with _ | _ | m
    · simp only [hsv, memSrc, Bool.false_eq_true, if_false] at hpl hbound hwob
      have hfi : fetch_immediate sem
            { c with remaining_cycles := wsub8 c.remaining_cycles 4 } b
          = ((exec sem { c with
                remaining_cycles := wsub8 c.remaining_cycles 4,
                pc := wadd16 c.pc 1,
                operand := c.operand ||| (d8 <<< 8) }).1, b,
             (exec sem { c with
                remaining_cycles := wsub8 c.remaining_cycles 4,
                pc := wadd16 c.pc 1,
                operand := c.operand ||| (d8 <<< 8) }).2) := by
        simp only [fetch_immediate, fetch_pc, hd8, hs, hsv]
      obtain ⟨hee, hem, het⟩ := exec_succ sem tk wo
        { c with
            remaining_cycles := wsub8 c.remaining_cycles 4,
            pc := wadd16 c.pc 1,
            operand := c.operand ||| (d8 <<< 8) }
        hop hcb ht hu hut ht4 hu4
        (show wsub8 c.remaining_cycles 4 % 4 = 0 by omega)
        (by show wsub8 c.remaining_cycles 4 + adjD tk c < 256
            simp only [adjD]
            omega)
        (by intro hww
            show 4 ≤ wsub8 c.remaining_cycles 4 + adjD tk c
            simp only [adjD]
            have := hwob hww
            omega)
      refine tick_lift sem tk wo c b ?_ ?_ ?_
      · rw [htp, hfi]
        exact hee
      · rw [htp, hfi]
        exact hem
      · rw [htp, hfi, het]
        simp only [ticksLeft, phasesLeft, adjD, hs, hsv, memSrc,
          Bool.false_eq_true, if_false, hsub]
    · simp only [hsv, memSrc, Bool.false_eq_true, if_false] at hpl hbound hwob
      have hfi : fetch_immediate sem
            { c with remaining_cycles := wsub8 c.remaining_cycles 4 } b
          = ((exec sem { c with
                remaining_cycles := wsub8 c.remaining_cycles 4,
                pc := wadd16 c.pc 1,
                operand := c.operand ||| (d8 <<< 8) }).1, b,
             (exec sem { c with
                remaining_cycles := wsub8 c.remaining_cycles 4,
                pc := wadd16 c.pc 1,
                operand := c.operand ||| (d8 <<< 8) }).2) := by
        simp only [fetch_immediate, fetch_pc, hd8, hs, hsv]
      obtain ⟨hee, hem, het⟩ := exec_succ sem tk wo
        { c with
            remaining_cycles := wsub8 c.remaining_cycles 4,
            pc := wadd16 c.pc 1,
            operand := c.operand ||| (d8 <<< 8) }
        hop hcb ht hu hut ht4 hu4
        (show wsub8 c.remaining_cycles 4 % 4 = 0 by omega)
        (by show wsub8 c.remaining_cycles 4 + adjD tk c < 256
            simp only [adjD]
            omega)
        (by intro hww
            show 4 ≤ wsub8 c.remaining_cycles 4 + adjD tk c
            simp only [adjD]
            have := hwob hww
            omega)
      refine tick_lift sem tk wo c b ?_ ?_ ?_
      · rw [htp, hfi]
        exact hee
      · rw [htp, hfi]
        exact hem
      · rw [htp, hfi, het]
        simp only [ticksLeft, phasesLeft, adjD, hs, hsv, memSrc,
          Bool.false_eq_true, if_false, hsub]
    · simp only [hsv, memSrc, if_true] at hpl hbound hwob
      have hfi : fetch_immediate sem
            { c with remaining_cycles := wsub8 c.remaining_cycles 4 } b
          = ({ c with
                remaining_cycles := wsub8 c.remaining_cycles 4,
                pc := wadd16 c.pc 1,
                operand := c.operand ||| (d8 <<< 8),
                state := CpuState.FetchMemory }, b, none) := by
        simp only [fetch_immediate, fetch_pc, hd8, hs, hsv]
      refine tick_lift sem tk wo c b ?_ ?_ ?_
      · rw [htp, hfi]
      · rw [htp, hfi]
        simp only [MidOk, PreOk, phasesLeft, adjD, hsv, memSrc, if_true, hsub]
        refine ⟨⟨hcb, ht, hu, hut, ht4, hu4, by omega, by omega, ?_, ?_, ?_⟩, trivial⟩
        · omega
        · omega
        · intro hww
          have := hwob hww
          omega
      · rw [htp, hfi]
        simp only [ticksLeft, phasesLeft, adjD, hs, hsv, memSrc, if_true, hsub]
        omega
  | FetchMemory =>
    simp only [MidOk, hs] at hmid
    obtain ⟨hpre, hmem⟩ := hmid
    unfold PreOk at hpre
    obtain ⟨hcb, ht, hu, hut, ht4, hu4, hr256, hr4m, hpl, hbound, hwob⟩ := hpre
    simp only [phasesLeft, hs] at hpl hbound hwob
    simp only [adjD] at hbound hwob
    have htp : tickPhase sem { c with remaining_cycles := wsub8 c.remaining_cycles 4 } b
        = fetch_memory sem { c with remaining_cycles := wsub8 c.remaining_cycles 4 } b := by
      simp only [tickPhase, hs]
    have hr4le : 4 ≤ c.remaining_cycles := by omega
    have hsub : wsub8 c.remaining_cycles 4 = c.remaining_cycles - 4 :=
      wsub8_exact hr4le hr256
    rcases hsv : c.info.src with _ | _ | m
    · rw [hsv] at hmem
      simp [memSrc] at hmem
    · rw [hsv] at hmem
      simp [memSrc] at hmem
    · cases m with
      | A16 =>
        obtain ⟨v, hv⟩ := hbus.r8 b (c.operand)
        have hfm : fetch_memory sem
              { c with remaining_cycles := wsub8 c.remaining_cycles 4 } b
            = ((exec sem { c with
              remaining_cycles := wsub8 c.remaining_cycles 4,
              operand := v }).1, b,
               (exec sem { c with
              remaining_cycles := wsub8 c.remaining_cycles 4,
              operand := v }).2) := by
          simp only [fetch_memory, hsv, hv]
        obtain ⟨hee, hem, het⟩ := exec_succ sem tk wo
          { c with
              remaining_cycles := wsub8 c.remaining_cycles 4,
              operand := v }
          hop hcb ht hu hut ht4 hu4
          (show wsub8 c.remaining_cycles 4 % 4 = 0 by omega)
          (by show wsub8 c.remaining_cycles 4 + adjD tk c < 256
              simp only [adjD]
              omega)
          (by intro hww
              show 4 ≤ wsub8 c.remaining_cycles 4 + adjD tk c
              simp only [adjD]
              have := hwob hww
              omega)
        refine tick_lift sem tk wo c b ?_ ?_ ?_
        · rw [htp, hfm]
          exact hee
        · rw [htp, hfm]
          exact hem
        · rw [htp, hfm, het]
          simp only [ticksLeft, phasesLeft, adjD, hs, hsub]
      | Io =>
        obtain ⟨v, hv⟩ := hbus.r8 b (wadd16 0xFF00 c.operand)
        have hfm : fetch_memory sem
              { c with remaining_cycles := wsub8 c.remaining_cycles 4 } b
            = ((exec sem { c with
              remaining_cycles := wsub8 c.remaining_cycles 4,
              operand := v }).1, b,
               (exec sem { c with
              remaining_cycles := wsub8 c.remaining_cycles 4,
              operand := v }).2) := by
          simp only [fetch_memory, hsv, hv]
        obtain ⟨hee, hem, het⟩ := exec_succ sem tk wo
          { c with
              remaining_cycles := wsub8 c.remaining_cycles 4,
              operand := v }
          hop hcb ht hu hut ht4 hu4
          (show wsub8 c.remaining_cycles 4 % 4 = 0 by omega)
          (by show wsub8 c.remaining_cycles 4 + adjD tk c < 256
              simp only [adjD]
              omega)
          (by intro hww
              show 4 ≤ wsub8 c.remaining_cycles 4 + adjD tk c
              simp only [adjD]
              have := hwob hww
              omega)
        refine tick_lift sem tk wo c b ?_ ?_ ?_
        · rw [htp, hfm]
          exact hee
        · rw [htp, hfm]
          exact hem
        · rw [htp, hfm, het]
          simp only [ticksLeft, phasesLeft, adjD, hs, hsub]
      | C =>
        obtain ⟨v, hv⟩ := hbus.r8 b (0xFF00 + c.bc % 256)
        have hfm : fetch_memory sem
              { c with remaining_cycles := wsub8 c.remaining_cycles 4 } b
            = ((exec sem { c with
              remaining_cycles := wsub8 c.remaining_cycles 4,
              operand := v }).1, b,
               (exec sem { c with
              remaining_cycles := wsub8 c.remaining_cycles 4,
              operand := v }).2) := by
          simp only [fetch_memory, hsv, CPU.c, hv]
        obtain ⟨hee, hem, het⟩ := exec_succ sem tk wo
          { c with
              remaining_cycles := wsub8 c.remaining_cycles 4,
              operand := v }
          hop hcb ht hu hut ht4 hu4
          (show wsub8 c.remaining_cycles 4 % 4 = 0 by omega)
          (by show wsub8 c.remaining_cycles 4 + adjD tk c < 256
              simp only [adjD]
              omega)
          (by intro hww
              show 4 ≤ wsub8 c.remaining_cycles 4 + adjD tk c
              simp only [adjD]
              have := hwob hww
              omega)
        refine tick_lift sem tk wo c b ?_ ?_ ?_
        · rw [htp, hfm]
          exact hee
        · rw [htp, hfm]
          exact hem
        · rw [htp, hfm, het]
          simp only [ticksLeft, phasesLeft, adjD, hs, hsub]
      | BC =>
        obtain ⟨v, hv⟩ := hbus.r8 b (c.bc)
        have hfm : fetch_memory sem
              { c with remaining_cycles := wsub8 c.remaining_cycles 4 } b
            = ((exec sem { c with
              remaining_cycles := wsub8 c.remaining_cycles 4,
              operand := v }).1, b,
               (exec sem { c with
              remaining_cycles := wsub8 c.remaining_cycles 4,
              operand := v }).2) := by
          simp only [fetch_memory, hsv, hv]
        obtain ⟨hee, hem, het⟩ := exec_succ sem tk wo
          { c with
              remaining_cycles := wsub8 c.remaining_cycles 4,
              operand := v }
          hop hcb ht hu hut ht4 hu4
          (show wsub8 c.remaining_cycles 4 % 4 = 0 by omega)
          (by show wsub8 c.remaining_cycles 4 + adjD tk c < 256
              simp only [adjD]
              omega)
          (by intro hww
              show 4 ≤ wsub8 c.remaining_cycles 4 + adjD tk c
              simp only [adjD]
              have := hwob hww
              omega)
        refine tick_lift sem tk wo c b ?_ ?_ ?_
        · rw [htp, hfm]
          exact hee
        · rw [htp, hfm]
          exact hem
        · rw [htp, hfm, het]
          simp only [ticksLeft, phasesLeft, adjD, hs, hsub]
      | DE =>
        obtain ⟨v, hv⟩ := hbus.r8 b (c.de)
        have hfm : fetch_memory sem
              { c with remaining_cycles := wsub8 c.remaining_cycles 4 } b
            = ((exec sem { c with
              remaining_cycles := wsub8 c.remaining_cycles 4,
              operand := v }).1, b,
               (exec sem { c with
              remaining_cycles := wsub8 c.remaining_cycles 4,
              operand := v }).2) := by
          simp only [fetch_memory, hsv, hv]
        obtain ⟨hee, hem, het⟩ := exec_succ sem tk wo
          { c with
              remaining_cycles := wsub8 c.remaining_cycles 4,
              operand := v }
          hop hcb ht hu hut ht4 hu4
          (show wsub8 c.remaining_cycles 4 % 4 = 0 by omega)
          (by show wsub8 c.remaining_cycles 4 + adjD tk c < 256
              simp only [adjD]
              omega)
          (by intro hww
              show 4 ≤ wsub8 c.remaining_cycles 4 + adjD tk c
              simp only [adjD]
              have := hwob hww
              omega)
        refine tick_lift sem tk wo c b ?_ ?_ ?_
        · rw [htp, hfm]
          exact hee
        · rw [htp, hfm]
          exact hem
        · rw [htp, hfm, het]
          simp only [ticksLeft, phasesLeft, adjD, hs, hsub]
      | HL =>
        obtain ⟨v, hv⟩ := hbus.r8 b (c.hl)
        have hfm : fetch_memory sem
              { c with remaining_cycles := wsub8 c.remaining_cycles 4 } b
            = ((exec sem { c with
              remaining_cycles := wsub8 c.remaining_cycles 4,
              operand := v }).1, b,
               (exec sem { c with
              remaining_cycles := wsub8 c.remaining_cycles 4,
              operand := v }).2) := by
          simp only [fetch_memory, hsv, hv]
        obtain ⟨hee, hem, het⟩ := exec_succ sem tk wo
          { c with
              remaining_cycles := wsub8 c.remaining_cycles 4,
              operand := v }
          hop hcb ht hu hut ht4 hu4
          (show wsub8 c.remaining_cycles 4 % 4 = 0 by omega)
          (by show wsub8 c.remaining_cycles 4 + adjD tk c < 256
              simp only [adjD]
              omega)
          (by intro hww
              show 4 ≤ wsub8 c.remaining_cycles 4 + adjD tk c
              simp only [adjD]
              have := hwob hww
              omega)
        refine tick_lift sem tk wo c b ?_ ?_ ?_
        · rw [htp, hfm]
          exact hee
        · rw [htp, hfm]
          exact hem
        · rw [htp, hfm, het]
          simp only [ticksLeft, phasesLeft, adjD, hs, hsub]
      | SP =>
        obtain ⟨v, hv⟩ := hbus.r16 b (c.sp)
        have hfm : fetch_memory sem
              { c with remaining_cycles := wsub8 c.remaining_cycles 4 } b
            = ((exec sem { c with
              remaining_cycles := wsub8 c.remaining_cycles 4,
              sp := wadd16 c.sp 2,
              operand := v }).1, b,
               (exec sem { c with
              remaining_cycles := wsub8 c.remaining_cycles 4,
              sp := wadd16 c.sp 2,
              operand := v }).2) := by
          simp only [fetch_memory, hsv, hv]
        obtain ⟨hee, hem, het⟩ := exec_succ sem tk wo
          { c with
              remaining_cycles := wsub8 c.remaining_cycles 4,
              sp := wadd16 c.sp 2,
              operand := v }
          hop hcb ht hu hut ht4 hu4
          (show wsub8 c.remaining_cycles 4 % 4 = 0 by omega)
          (by show wsub8 c.remaining_cycles 4 + adjD tk c < 256
              simp only [adjD]
              omega)
          (by intro hww
              show 4 ≤ wsub8 c.remaining_cycles 4 + adjD tk c
              simp only [adjD]
              have := hwob hww
              omega)
        refine tick_lift sem tk wo c b ?_ ?_ ?_
        · rw [htp, hfm]
          exact hee
        · rw [htp, hfm]
          exact hem
        · rw [htp, hfm, het]
          simp only [ticksLeft, phasesLeft, adjD, hs, hsub]

/-- Helper: running a well-formed mid-instruction configuration for
exactly its tick count lands in `FetchOpcode`, never earlier. -/
theorem mid_run (sem : Sem β) (tk : Bool) (wo : Option WritebackOp)
    (hbus : BusTotal sem.bus) (hop : OpSteady sem.op tk wo) :
    ∀ n (c : CPU) (b : β), MidOk tk wo c → ticksLeft tk c = n →
    (steps sem n (c, b)).1.state = CpuState.FetchOpcode ∧
    ∀ k, k < n → (steps sem k (c, b)).1.state ≠ CpuState.FetchOpcode := by
  intro n
  induction n with
  | zero =>
    intro c b hmid h0
    constructor
    · simpa [steps] using ticksLeft_zero tk wo c hmid h0
    · intro k hk
      exact absurd hk (by omega)
  | succ n ih =>
    intro c b hmid hn
    have hne : c.state ≠ CpuState.FetchOpcode := by
      intro hEq
      have h0 : ticksLeft tk c = 0 := by simp only [ticksLeft, hEq]
      omega
    obtain ⟨he, hm, htl⟩ := mid_step sem tk wo c b hbus hop hmid hne
    have hstep : step1 sem (c, b) = ((tick sem c b).1, (tick sem c b).2.1) := rfl
    have hn' : ticksLeft tk (tick sem c b).1 = n := by omega
    obtain ⟨h1, h2⟩ := ih (tick sem c b).1 (tick sem c b).2.1 hm hn'
    constructor
    · show (steps sem n (step1 sem (c, b))).1.state = CpuState.FetchOpcode
      rw [hstep]
      exact h1
    · intro k hk
      cases k with
      | zero => simpa [steps] using hne
      | succ j =>
        have hj : j < n := by omega
        show (steps sem j (step1 sem (c, b))).1.state ≠ CpuState.FetchOpcode
        rw [hstep]
        exact h2 j hj

/-- Helper: lift phase-level facts through `tick`, keeping an absolute
tick count (used for the opcode-fetch tick, whose own configuration is
`FetchOpcode` and thus has count zero). -/
theorem tick_lift' (sem : Sem β) (tk : Bool) (wo : Option WritebackOp) (c : CPU) (b : β)
    (n : Nat)
    (h : (tickPhase sem { c with remaining_cycles := wsub8 c.remaining_cycles 4 } b).2.2
          = none)
    (hmid1 : MidOk tk wo
      (tickPhase sem { c with remaining_cycles := wsub8 c.remaining_cycles 4 } b).1)
    (htl : ticksLeft tk
      (tickPhase sem { c with remaining_cycles := wsub8 c.remaining_cycles 4 } b).1 = n) :
    (tick sem c b).2.2 = none ∧ MidOk tk wo (tick sem c b).1 ∧
    ticksLeft tk (tick sem c b).1 = n := by
  rcases htp : tickPhase sem { c with remaining_cycles := wsub8 c.remaining_cycles 4 } b
    with ⟨c1, b1, e1⟩
  rw [htp] at h hmid1 htl
  simp only at h
  subst h
  obtain ⟨_, he', hst', hrc', hinfo', hcb', _⟩ := tick_of_phase_ok sem c b c1 b1 htp
  obtain ⟨hm, ht⟩ := midok_of_proj tk wo c1 (tick sem c b).1 hst' hrc' hinfo' hcb'
  exact ⟨he', hm (by simpa using hmid1), by rw [ht]; simpa using htl⟩

/-- C3 counterexample: the cycle-count rule fails for a CB-prefixed
instruction. From the power-on CPU, the semantics `semCbHl` fetches the
prefix byte `0xCB` whose metadata has untaken = taken = 8 (4-divisible,
budget `4 * 2 = 8 ≤ 8` covering the prefix fetch and the secondary
fetch), yet after `8 / 4 = 2` ticks the engine is in `FetchMemory`, not
`FetchOpcode`: the secondary byte `0x06` has low 3 bits 6, so the
engine forces `(HL)` addressing and adds 8 cycles mid-instruction, and
only the 4th tick returns to `FetchOpcode`. -/
theorem cb_cycle_budget_counterexample :
    CPU.default.state = CpuState.FetchOpcode ∧
    CPU.default.breakpoints.contains CPU.default.pc = false ∧
    semCbHl.bus.read8 () CPU.default.pc = Except.ok 0xCB ∧
    (semCbHl.table 0xCB).untaken = 8 ∧ (semCbHl.table 0xCB).taken = 8 ∧
    (semCbHl.table 0xCB).untaken % 4 = 0 ∧
    4 * (1 + (if 1 < (semCbHl.table 0xCB).size then 1 else 0)
      + (if 2 < (semCbHl.table 0xCB).size then 1 else 0)
      + (if memSrc (semCbHl.table 0xCB).src then 1 else 0))
        ≤ (semCbHl.table 0xCB).untaken ∧
    (steps semCbHl (8 / 4) (CPU.default, ())).1.state = CpuState.FetchMemory ∧
    (steps semCbHl (8 / 4) (CPU.default, ())).1.state ≠ CpuState.FetchOpcode ∧
    (steps semCbHl 4 (CPU.default, ())).1.state = CpuState.FetchOpcode := by
  refine ⟨rfl, rfl, rfl, rfl, rfl, rfl, by decide, by decide, by decide, by decide⟩

/-- C3 amended: cycle-budget conservation for non-CB instructions.
Start a `tick` in `FetchOpcode` with no breakpoint armed at `pc`, on a
total bus whose fetch yields an opcode `o` other than the CB prefix
`0xCB`. Let `U`/`T` be the opcode's untaken/taken cycle counts
(4-divisible `u8` values, `U ≤ T`), and assume the budget covers
the instruction's phases (the opcode fetch, its extra immediate
fetches, its memory fetch, and a queued writeback). Then with
`B = T` when the semantics takes the branch and `B = U` otherwise, the
engine is next in `FetchOpcode` after exactly `B / 4` tick calls —
counting the fetch tick itself — and at no earlier point after the
fetch, regardless of which intermediate phases were required. For a
CB-prefixed `(HL)` instruction the rule fails: 8 cycles join the
budget only after the secondary fetch, so the tick count exceeds the
prefix metadata's `U / 4`. -/
theorem cycle_budget_conservation (sem : Sem β) (tk : Bool) (wo : Option WritebackOp)
    (c : CPU) (b : β) (o : Nat)
    (hbus : BusTotal sem.bus) (hop : OpSteady sem.op tk wo)
    (hst : c.state = CpuState.FetchOpcode)
    (hbp : c.breakpoints.contains c.pc = false)
    (hrd : sem.bus.read8 b c.pc = Except.ok o)
    (hcb : o ≠ 0xCB)
    (hT4 : (sem.table o).taken % 4 = 0)
    (hU4 : (sem.table o).untaken % 4 = 0)
    (hUT : (sem.table o).untaken ≤ (sem.table o).taken)
    (hT256 : (sem.table o).taken < 256)
    (hbudget : 4 * (1 + (if 1 < (sem.table o).size then 1 else 0)
        + (if 2 < (sem.table o).size then 1 else 0)
        + (if memSrc (sem.table o).src then 1 else 0)) ≤ (sem.table o).untaken)
    (hwob : wo.isSome = true →
      4 * (1 + (if 1 < (sem.table o).size then 1 else 0)
        + (if 2 < (sem.table o).size then 1 else 0)
        + (if memSrc (sem.table o).src then 1 else 0)) + 4
          ≤ (if tk then (sem.table o).taken else (sem.table o).untaken)) :
    (steps sem ((if tk then (sem.table o).taken else (sem.table o).untaken) / 4)
        (c, b)).1.state = CpuState.FetchOpcode ∧
    ∀ k, 0 < k → k < (if tk then (sem.table o).taken else (sem.table o).untaken) / 4 →
      (steps sem k (c, b)).1.state ≠ CpuState.FetchOpcode := by
  have hU256 : (sem.table o).untaken < 256 := Nat.lt_of_le_of_lt hUT hT256
  have hP1 : 4 ≤ (sem.table o).untaken := by omega
  have hsubU : wsub8 (sem.table o).untaken 4 = (sem.table o).untaken - 4 :=
    wsub8_exact hP1 hU256
  have hcbeq : (o == 0xCB) = false := beq_eq_false_iff_ne.mpr hcb
  have hA4 : (if tk = true then (sem.table o).taken - (sem.table o).untaken else 0) % 4
      = 0 := by
    cases tk
    · simp
    · simp only [eq_self_iff_true, if_true]
      omega
  have hAB : (if tk = true then (sem.table o).taken - (sem.table o).untaken else 0)
      = (if tk then (sem.table o).taken else (sem.table o).untaken)
        - (sem.table o).untaken := by
    cases tk <;> simp
  have hUB : (sem.table o).untaken
      ≤ (if tk then (sem.table o).taken else (sem.table o).untaken) := by
    cases tk <;> simp [hUT]
  have hB256 : (if tk then (sem.table o).taken else (sem.table o).untaken) < 256 := by
    cases tk <;> simp [hT256, hU256]
  have hB4 : (if tk then (sem.table o).taken else (sem.table o).untaken) % 4 = 0 := by
    cases tk <;> simp [hT4, hU4]
  have htp : tickPhase sem { c with remaining_cycles := wsub8 c.remaining_cycles 4 } b
      = fetch_opcode sem { c with remaining_cycles := wsub8 c.remaining_cycles 4 } b := by
    simp only [tickPhase, hst]
  -- First, establish the three facts about the fetch tick's result,
  -- then close with mid_run.
  have hrun : (tick sem c b).2.2 = none ∧ MidOk tk wo (tick sem c b).1 ∧
      ticksLeft tk (tick sem c b).1
        = (if tk then (sem.table o).taken else (sem.table o).untaken) / 4 - 1 := by
    by_cases hsz1 : 1 < (sem.table o).size
    · rw [if_pos hsz1] at hbudget hwob
      have hfo : fetch_opcode sem
            { c with remaining_cycles := wsub8 c.remaining_cycles 4 } b
          = ({ c with
                remaining_cycles := wsub8 (sem.table o).untaken 4,
                paused := false,
                pc := wadd16 c.pc 1,
                opcode := o,
                info := sem.table o,
                operand := 0,
                cb_mode := (o == 0xCB),
                write_op := none,
                executing := true,
                branch_taken := false,
                state := CpuState.FetchByte0 }, b, none) := by
        simp only [fetch_opcode, fetch_pc, hrd, hbp, Bool.and_false, Bool.false_eq_true,
          if_false, if_pos hsz1]
      refine tick_lift' sem tk wo c b _ ?_ ?_ ?_
      · rw [htp, hfo]
      · rw [htp, hfo]
        simp only [MidOk, PreOk, phasesLeft, adjD, hcbeq, hsubU]
        refine ⟨trivial, hT256, hU256, hUT, hT4, hU4, by omega, by omega, ?_, ?_, ?_⟩
        · omega
        · omega
        · intro hww
          have := hwob hww
          omega
      · rw [htp, hfo]
        simp only [ticksLeft, phasesLeft, adjD, hcbeq, hsubU]
        omega
    · rw [if_neg hsz1] at hbudget hwob
      rcases hsv : (sem.table o).src with _ | _ | m
      · simp only [hsv, memSrc, Bool.false_eq_true, if_false] at hbudget hwob
        have hfo : fetch_opcode sem
              { c with remaining_cycles := wsub8 c.remaining_cycles 4 } b
            = ((exec sem { c with
                  remaining_cycles := wsub8 (sem.table o).untaken 4,
                  paused := false,
                  pc := wadd16 c.pc 1,
                  opcode := o,
                  info := sem.table o,
                  operand := 0,
                  cb_mode := (o == 0xCB),
                  write_op := none,
                  executing := true,
                  branch_taken := false }).1, b,
               (exec sem { c with
                  remaining_cycles := wsub8 (sem.table o).untaken 4,
                  paused := false,
                  pc := wadd16 c.pc 1,
                  opcode := o,
                  info := sem.table o,
                  operand := 0,
                  cb_mode := (o == 0xCB),
                  write_op := none,
                  executing := true,
                  branch_taken := false }).2) := by
          simp only [fetch_opcode, fetch_pc, hrd, hbp, Bool.and_false, Bool.false_eq_true,
            if_false, if_neg hsz1, hsv]
        obtain ⟨hee, hem, het⟩ := exec_succ sem tk wo
          { c with
              remaining_cycles := wsub8 (sem.table o).untaken 4,
              paused := false,
              pc := wadd16 c.pc 1,
              opcode := o,
              info := sem.table o,
              operand := 0,
              cb_mode := (o == 0xCB),
              write_op := none,
              executing := true,
              branch_taken := false }
          hop (by show (o == 0xCB) = false; exact hcbeq) hT256 hU256 hUT hT4 hU4
          (show wsub8 (sem.table o).untaken 4 % 4 = 0 by omega)
          (by show wsub8 (sem.table o).untaken 4 + adjD tk _ < 256
              simp only [adjD]
              omega)
          (by intro hww
              show 4 ≤ wsub8 (sem.table o).untaken 4 + adjD tk _
              simp only [adjD]
              have := hwob hww
              omega)
        refine tick_lift' sem tk wo c b _ ?_ ?_ ?_
        · rw [htp, hfo]
          exact hee
        · rw [htp, hfo]
          exact hem
        · rw [htp, hfo, het]
          simp only [adjD, hsubU]
          omega
      · simp only [hsv, memSrc, Bool.false_eq_true, if_false] at hbudget hwob
        have hfo : fetch_opcode sem
              { c with remaining_cycles := wsub8 c.remaining_cycles 4 } b
            = ((exec sem { c with
                  remaining_cycles := wsub8 (sem.table o).untaken 4,
                  paused := false,
                  pc := wadd16 c.pc 1,
                  opcode := o,
                  info := sem.table o,
                  operand := 0,
                  cb_mode := (o == 0xCB),
                  write_op := none,
                  executing := true,
                  branch_taken := false }).1, b,
               (exec sem { c with
                  remaining_cycles := wsub8 (sem.table o).untaken 4,
                  paused := false,
                  pc := wadd16 c.pc 1,
                  opcode := o,
                  info := sem.table o,
                  operand := 0,
                  cb_mode := (o == 0xCB),
                  write_op := none,
                  executing := true,
                  branch_taken := false }).2) := by
          simp only [fetch_opcode, fetch_pc, hrd, hbp, Bool.and_false, Bool.false_eq_true,
            if_false, if_neg hsz1, hsv]
        obtain ⟨hee, hem, het⟩ := exec_succ sem tk wo
          { c with
              remaining_cycles := wsub8 (sem.table o).untaken 4,
              paused := false,
              pc := wadd16 c.pc 1,
              opcode := o,
              info := sem.table o,
              operand := 0,
              cb_mode := (o == 0xCB),
              write_op := none,
              executing := true,
              branch_taken := false }
          hop (by show (o == 0xCB) = false; exact hcbeq) hT256 hU256 hUT hT4 hU4
          (show wsub8 (sem.table o).untaken 4 % 4 = 0 by omega)
          (by show wsub8 (sem.table o).untaken 4 + adjD tk _ < 256
              simp only [adjD]
              omega)
          (by intro hww
              show 4 ≤ wsub8 (sem.table o).untaken 4 + adjD tk _
              simp only [adjD]
              have := hwob hww
              omega)
        refine tick_lift' sem tk wo c b _ ?_ ?_ ?_
        · rw [htp, hfo]
          exact hee
        · rw [htp, hfo]
          exact hem
        · rw [htp, hfo, het]
          simp only [adjD, hsubU]
          omega
      · simp only [hsv, memSrc, if_true] at hbudget hwob
        have hfo : fetch_opcode sem
              { c with remaining_cycles := wsub8 c.remaining_cycles 4 } b
            = ({ c with
                  remaining_cycles := wsub8 (sem.table o).untaken 4,
                  paused := false,
                  pc := wadd16 c.pc 1,
                  opcode := o,
                  info := sem.table o,
                  operand := 0,
                  cb_mode := (o == 0xCB),
                  write_op := none,
                  executing := true,
                  branch_taken := false,
                  state := CpuState.FetchMemory }, b, none) := by
          simp only [fetch_opcode, fetch_pc, hrd, hbp, Bool.and_false, Bool.false_eq_true,
            if_false, if_neg hsz1, hsv]
        refine tick_lift' sem tk wo c b _ ?_ ?_ ?_
        · rw [htp, hfo]
        · rw [htp, hfo]
          simp only [MidOk, PreOk, phasesLeft, adjD, hcbeq, hsubU, hsv, memSrc, if_true]
          refine ⟨⟨trivial, hT256, hU256, hUT, hT4, hU4, by omega, by omega, ?_, ?_, ?_⟩,
            trivial⟩
          · omega
          · omega
          · intro hww
            have := hwob hww
            omega
        · rw [htp, hfo]
          simp only [ticksLeft, phasesLeft, adjD, hcbeq, hsubU]
          omega
  obtain ⟨hte, htm, htt⟩ := hrun
  obtain ⟨h1, h2⟩ := mid_run sem tk wo hbus hop
    ((if tk then (sem.table o).taken else (sem.table o).untaken) / 4 - 1)
    (tick sem c b).1 (tick sem c b).2.1 htm htt
  have hstep : step1 sem (c, b) = ((tick sem c b).1, (tick sem c b).2.1) := rfl
  have hn1 : (if tk then (sem.table o).taken else (sem.table o).untaken) / 4
      = ((if tk then (sem.table o).taken else (sem.table o).untaken) / 4 - 1) + 1 := by
    omega
  constructor
  · rw [hn1]
    show (steps sem _ (step1 sem (c, b))).1.state = CpuState.FetchOpcode
    rw [hstep]
    exact h1
  · intro k hk0 hkn
    cases k with
    | zero => exact absurd hk0 (by omega)
    | succ j =>
      have hj : j < (if tk then (sem.table o).taken else (sem.table o).untaken) / 4 - 1 := by
        omega
      show (steps sem j (step1 sem (c, b))).1.state ≠ CpuState.FetchOpcode
      rw [hstep]
      exact h2 j hj

/-- Witness: cycle-budget conservation at the power-on CPU over the
trivial total bus, fetching the NOP-like opcode 0 (untaken count 4,
branch not taken): exactly one tick returns to `FetchOpcode`. -/
theorem cycle_budget_conservation_witness :
    (steps semU ((if false then (semU.table 0).taken else (semU.table 0).untaken) / 4)
        (CPU.default, ())).1.state = CpuState.FetchOpcode ∧
    ∀ k, 0 < k →
      k < (if false then (semU.table 0).taken else (semU.table 0).untaken) / 4 →
      (steps semU k (CPU.default, ())).1.state ≠ CpuState.FetchOpcode :=
  cycle_budget_conservation semU false none CPU.default () 0
    (by constructor
        · intro b a
          exact ⟨0, rfl⟩
        · intro b a
          exact ⟨0, rfl⟩
        · intro b a v
          rfl
        · intro b a v
          rfl)
    (by constructor
        · intro c
          rfl
        · intro c
          rfl
        · intro c
          rfl
        · intro c
          rfl
        · intro c
          rfl)
    rfl rfl rfl (by decide) (by decide) (by decide) (by decide) (by decide)
    (by decide) (by decide)
